import Mathlib

/-!
Shallow embedding of the quad-terminal extension core:
the terminal manager (PTY lifecycle, busy/idle debouncing),
the tab manager (tab map, active tab, allocator) and the
provider message dispatch, translated from the TypeScript source.

JavaScript `Map`s are modelled as insertion-ordered association
lists; `setTimeout`/`clearTimeout` are modelled by a map of pending
timers keyed by a fresh timer id, and a timer can only fire while
its id is still pending (clearTimeout removes it).  PTY processes
are identified by freshly allocated pids; writes, resizes and kills
on them are recorded as trace events.
-/

namespace QuadTerminal

/-- A JavaScript Map with Nat keys: an insertion-ordered association list. -/
abbrev JSMap (β : Type) := List (Nat × β)

namespace JSMap

/-- Map.get: first binding of the key, if any. -/
def get {β : Type} (m : JSMap β) (k : Nat) : Option β :=
  (m.find? (fun p => p.1 == k)).map Prod.snd

/-- Map.has. -/
def haskey {β : Type} (m : JSMap β) (k : Nat) : Bool :=
  (get m k).isSome

/-- Map.set: replace in place if the key exists, else append (JS insertion order). -/
def set {β : Type} : JSMap β → Nat → β → JSMap β
  | [], k, v => [(k, v)]
  | p :: m, k, v => if p.1 == k then (k, v) :: m else p :: set m k v

/-- Map.delete: remove the binding, preserving the order of the rest. -/
def del {β : Type} (m : JSMap β) (k : Nat) : JSMap β :=
  m.filter (fun p => p.1 != k)

/-- Map.keys in insertion order. -/
def keys {β : Type} (m : JSMap β) : List Nat :=
  m.map Prod.fst

/-- Map.size. -/
def size {β : Type} (m : JSMap β) : Nat :=
  m.length

theorem get_cons {β : Type} (p : Nat × β) (m : JSMap β) (k : Nat) :
    get (p :: m) k = if p.1 = k then some p.2 else get m k := by
  by_cases h : p.1 = k <;> simp [get, List.find?_cons, h]

theorem keys_cons {β : Type} (p : Nat × β) (m : JSMap β) :
    keys (p :: m) = p.1 :: keys m := rfl

theorem isSome_get_iff_mem_keys {β : Type} (m : JSMap β) (k : Nat) :
    (get m k).isSome = true ↔ k ∈ keys m := by
  induction m with
  | nil => simp [get, keys]
  | cons p m ih =>
      rw [get_cons, keys_cons]
      by_cases h : p.1 = k
      · simp [h]
      · simp [h, ih, Ne.symm h]

theorem haskey_iff_mem_keys {β : Type} (m : JSMap β) (k : Nat) :
    haskey m k = true ↔ k ∈ keys m :=
  isSome_get_iff_mem_keys m k

theorem get_eq_none_iff {β : Type} (m : JSMap β) (k : Nat) :
    get m k = none ↔ k ∉ keys m := by
  rw [← isSome_get_iff_mem_keys]
  cases get m k <;> simp

theorem get_set_self {β : Type} (m : JSMap β) (k : Nat) (v : β) :
    get (set m k v) k = some v := by
  induction m with
  | nil => simp [set, get_cons]
  | cons p m ih => by_cases h : p.1 = k <;> simp [set, h, get_cons, ih]

theorem get_set_ne {β : Type} (m : JSMap β) (k kq : Nat) (v : β) (h : kq ≠ k) :
    get (set m k v) kq = get m kq := by
  induction m with
  | nil => simp [set, get_cons, get, (Ne.symm h)]
  | cons p m ih =>
      by_cases hp : p.1 = k <;>
        simp [set, hp, get_cons, ih, (Ne.symm h)]

theorem mem_set {β : Type} {m : JSMap β} {k : Nat} {v : β} {q : Nat × β}
    (h : q ∈ set m k v) : q ∈ m ∨ q = (k, v) := by
  induction m with
  | nil =>
      simp [set] at h
      exact Or.inr h
  | cons p m ih =>
      by_cases hp : p.1 = k
      · simp [set, hp] at h
        rcases h with h | h
        · exact Or.inr h
        · exact Or.inl (List.mem_cons_of_mem _ h)
      · simp [set, hp] at h
        rcases h with h | h
        · exact Or.inl (by simp [h])
        · rcases ih h with hh | hh
          · exact Or.inl (List.mem_cons_of_mem _ hh)
          · exact Or.inr hh

theorem keys_set_mem {β : Type} (m : JSMap β) (k : Nat) (v : β)
    (h : k ∈ keys m) : keys (set m k v) = keys m := by
  induction m with
  | nil => simp [keys] at h
  | cons p m ih =>
      by_cases hp : p.1 = k
      · simp [set, hp, keys_cons]
      · simp [keys_cons, Ne.symm hp] at h
        simp [set, hp, keys_cons, ih h]

theorem keys_set_not_mem {β : Type} (m : JSMap β) (k : Nat) (v : β)
    (h : k ∉ keys m) : keys (set m k v) = keys m ++ [k] := by
  induction m with
  | nil => simp [set, keys]
  | cons p m ih =>
      simp [keys_cons] at h
      push_neg at h
      simp [set, Ne.symm h.1, keys_cons, ih h.2]

theorem del_cons_eq {β : Type} (p : Nat × β) (m : JSMap β) (k : Nat)
    (hp : p.1 = k) : del (p :: m) k = del m k := by
  simp [del, hp]

theorem del_cons_ne {β : Type} (p : Nat × β) (m : JSMap β) (k : Nat)
    (hp : ¬p.1 = k) : del (p :: m) k = p :: del m k := by
  simp [del, hp]

theorem get_del_self {β : Type} (m : JSMap β) (k : Nat) :
    get (del m k) k = none := by
  induction m with
  | nil => rfl
  | cons p m ih =>
      by_cases hp : p.1 = k
      · rw [del_cons_eq p m k hp]; exact ih
      · rw [del_cons_ne p m k hp, get_cons]
        simp [hp, ih]

theorem get_del_ne {β : Type} (m : JSMap β) (k kq : Nat) (h : kq ≠ k) :
    get (del m k) kq = get m kq := by
  induction m with
  | nil => rfl
  | cons p m ih =>
      by_cases hp : p.1 = k
      · rw [del_cons_eq p m k hp, ih, get_cons]
        have : ¬p.1 = kq := by rw [hp]; exact Ne.symm h
        simp [this]
      · rw [del_cons_ne p m k hp, get_cons, get_cons, ih]

theorem mem_del {β : Type} {m : JSMap β} {k : Nat} {q : Nat × β}
    (h : q ∈ del m k) : q ∈ m :=
  List.mem_of_mem_filter h

theorem del_sublist {β : Type} (m : JSMap β) (k : Nat) :
    List.Sublist (del m k) m :=
  List.filter_sublist m

theorem keys_del_sublist {β : Type} (m : JSMap β) (k : Nat) :
    List.Sublist (keys (del m k)) (keys m) :=
  List.Sublist.map Prod.fst (del_sublist m k)

theorem mem_keys_del {β : Type} (m : JSMap β) (k kq : Nat) :
    kq ∈ keys (del m k) ↔ kq ∈ keys m ∧ kq ≠ k := by
  simp only [keys, del, List.mem_map]
  constructor
  · rintro ⟨p, hp, rfl⟩
    rcases List.mem_filter.mp hp with ⟨hm, hf⟩
    simp at hf
    exact ⟨⟨p, hm, rfl⟩, hf⟩
  · rintro ⟨⟨p, hm, rfl⟩, hne⟩
    exact ⟨p, List.mem_filter.mpr ⟨hm, by simpa using hne⟩, rfl⟩

theorem del_of_get_none {β : Type} (m : JSMap β) (k : Nat)
    (h : get m k = none) : del m k = m := by
  induction m with
  | nil => simp [del]
  | cons p m ih =>
      rw [get_cons] at h
      by_cases hp : p.1 = k
      · simp [hp] at h
      · simp [hp] at h
        simp [del, hp] at ih ⊢
        exact ih h

theorem get_eq_some_mem {β : Type} {m : JSMap β} {k : Nat} {v : β}
    (h : get m k = some v) : (k, v) ∈ m := by
  induction m with
  | nil => simp [get] at h
  | cons p m ih =>
      rw [get_cons] at h
      by_cases hp : p.1 = k
      · simp [hp] at h
        obtain ⟨a, b⟩ := p
        simp only at hp h
        subst hp; subst h
        exact List.mem_cons_self _ _
      · simp [hp] at h
        exact List.mem_cons_of_mem _ (ih h)

theorem nodup_keys_set {β : Type} (m : JSMap β) (k : Nat) (v : β)
    (h : (keys m).Nodup) : (keys (set m k v)).Nodup := by
  by_cases hk : k ∈ keys m
  · rw [keys_set_mem m k v hk]; exact h
  · rw [keys_set_not_mem m k v hk]
    simpa [List.nodup_append] using ⟨h, hk⟩

theorem nodup_keys_del {β : Type} (m : JSMap β) (k : Nat)
    (h : (keys m).Nodup) : (keys (del m k)).Nodup :=
  (keys_del_sublist m k).nodup h

theorem size_eq_keys_length {β : Type} (m : JSMap β) :
    size m = (keys m).length := by
  simp [size, keys]

end JSMap

/-- Per-tab state (interface TabState in the source): the five per-terminal maps. -/
structure TabState where
  ptyProcesses : JSMap Nat
  terminalProjects : JSMap String
  idleTimers : JSMap Nat
  terminalBusy : JSMap Bool
  claudeCommandTimeouts : JSMap Nat
deriving Repr, DecidableEq

/-- createTabState: all five maps empty. -/
def emptyTabState : TabState := ⟨[], [], [], [], []⟩

/-- The callback captured by a scheduled setTimeout. -/
inductive TimerKind where
  /-- The bootstrap timeout in startTerminal: after SHELL_INIT_DELAY_MS, if the
  slot still holds a pty, write the claude command into the captured process. -/
  | bootstrap (tabId terminalId pid : Nat) (sessionId : Option String)
  /-- The idle debounce timer set by markBusy. -/
  | idle (tabId terminalId : Nat)
  /-- The restart settle delay in restartTerminal. -/
  | restart (tabId terminalId : Nat) (projectPath : String)
deriving Repr, DecidableEq

/-- Visible effects: messenger sends to the webview plus pty-level actions. -/
inductive OutEvent where
  | clear (tabId terminalId : Nat)
  | output (tabId terminalId : Nat) (data : String)
  | error (tabId terminalId : Nat) (message : String)
  | killed (tabId terminalId : Nat)
  | restarting (tabId terminalId : Nat)
  | status (tabId terminalId : Nat) (busy : Bool)
  | tabCreated (tabId : Nat)
  | tabClosed (tabId newActiveTabId : Nat)
  | tabSwitched (tabId : Nat)
  | ptyWrite (pid : Nat) (data : String)
  | ptyResize (pid : Nat) (cols rows : Int)
  | ptyKill (pid : Nat)
deriving Repr, DecidableEq

/-- Whole-orchestrator state: TabManager fields plus the timer/pid allocators
that model setTimeout handles and spawned processes. -/
structure ManagerState where
  tabs : JSMap TabState
  activeTabId : Nat
  nextTabId : Nat
  nextPid : Nat
  nextTimerId : Nat
  pending : JSMap TimerKind
deriving Repr, DecidableEq

/-- Update one tab in place, if present. -/
def updateTab (st : ManagerState) (tabId : Nat) (f : TabState → TabState) : ManagerState :=
  match st.tabs.get tabId with
  | some ts => { st with tabs := st.tabs.set tabId (f ts) }
  | none => st

/-- The bootstrap command written after the shell-init delay. -/
def claudeCmd : Option String → String
  | some sessionId => "claude --dangerously-skip-permissions --resume " ++ sessionId ++ "\r"
  | none => "claude --dangerously-skip-permissions\r"

/-- The body of cleanupTerminal acting on one tab's state and the pending
timers: kill and drop the pty, clear the idle timer, clear the claude
command timeout, drop busy flag and recorded project. -/
def cleanupTS (ts : TabState) (pend : JSMap TimerKind) (terminalId : Nat) :
    TabState × JSMap TimerKind × List OutEvent :=
  let r1 : TabState × List OutEvent :=
    match ts.ptyProcesses.get terminalId with
    | some pid =>
        ({ ts with ptyProcesses := ts.ptyProcesses.del terminalId }, [OutEvent.ptyKill pid])
    | none => (ts, [])
  let ts := r1.1
  let r2 : TabState × JSMap TimerKind :=
    match ts.idleTimers.get terminalId with
    | some tid => ({ ts with idleTimers := ts.idleTimers.del terminalId }, pend.del tid)
    | none => (ts, pend)
  let ts := r2.1
  let r3 : TabState × JSMap TimerKind :=
    match ts.claudeCommandTimeouts.get terminalId with
    | some tid =>
        ({ ts with claudeCommandTimeouts := ts.claudeCommandTimeouts.del terminalId },
          r2.2.del tid)
    | none => (ts, r2.2)
  ({ r3.1 with terminalBusy := r3.1.terminalBusy.del terminalId,
               terminalProjects := r3.1.terminalProjects.del terminalId },
    r3.2, r1.2)

/-- TerminalManager.cleanupTerminal. -/
def cleanupTerminal (st : ManagerState) (tabId terminalId : Nat) :
    ManagerState × List OutEvent :=
  match st.tabs.get tabId with
  | none => (st, [])
  | some ts =>
      let r := cleanupTS ts st.pending terminalId
      ({ st with tabs := st.tabs.set tabId r.1, pending := r.2.1 }, r.2.2)

/-- TerminalManager.startTerminal.  `spawnOk` is the environment oracle for
whether pty.spawn throws; a successful spawn allocates a fresh pid. -/
def startTerminal (st : ManagerState) (tabId terminalId : Nat) (projectPath : String)
    (sessionId : Option String) (skipClaude : Bool) (spawnOk : Bool) :
    ManagerState × List OutEvent :=
  match st.tabs.get tabId with
  | none => (st, [])
  | some _ =>
      let r := cleanupTerminal st tabId terminalId
      let st := r.1
      let evs := r.2 ++ [OutEvent.clear tabId terminalId]
      if spawnOk then
        let pid := st.nextPid
        let st := { st with nextPid := pid + 1 }
        let st := updateTab st tabId fun ts =>
          { ts with ptyProcesses := ts.ptyProcesses.set terminalId pid,
                    terminalProjects := ts.terminalProjects.set terminalId projectPath }
        if skipClaude then (st, evs)
        else
          let tid := st.nextTimerId
          let st := { st with nextTimerId := tid + 1,
                              pending := st.pending.set tid
                                (TimerKind.bootstrap tabId terminalId pid sessionId) }
          let st := updateTab st tabId fun ts =>
            { ts with claudeCommandTimeouts := ts.claudeCommandTimeouts.set terminalId tid }
          (st, evs)
      else
        (st, evs ++ [OutEvent.error tabId terminalId "Failed to start terminal"])

/-- TerminalManager.killTerminal: only acts when the slot holds a pty. -/
def killTerminal (st : ManagerState) (tabId terminalId : Nat) :
    ManagerState × List OutEvent :=
  match (st.tabs.get tabId).bind (fun ts => ts.ptyProcesses.get terminalId) with
  | some _ =>
      let r := cleanupTerminal st tabId terminalId
      (r.1, r.2 ++ [OutEvent.killed tabId terminalId])
  | none => (st, [])

/-- The onExit handler registered in startTerminal: cleanup then sendKilled. -/
def onPtyExit (st : ManagerState) (tabId terminalId : Nat) :
    ManagerState × List OutEvent :=
  let r := cleanupTerminal st tabId terminalId
  (r.1, r.2 ++ [OutEvent.killed tabId terminalId])

/-- TerminalManager.handleInput. -/
def handleInput (st : ManagerState) (tabId terminalId : Nat) (data : String) :
    ManagerState × List OutEvent :=
  match (st.tabs.get tabId).bind (fun ts => ts.ptyProcesses.get terminalId) with
  | some pid => (st, [OutEvent.ptyWrite pid data])
  | none => (st, [])

/-- TerminalManager.handleResize: forwarded only when both dimensions are positive. -/
def handleResize (st : ManagerState) (tabId terminalId : Nat) (cols rows : Int) :
    ManagerState × List OutEvent :=
  match (st.tabs.get tabId).bind (fun ts => ts.ptyProcesses.get terminalId) with
  | some pid =>
      if cols > 0 ∧ rows > 0 then (st, [OutEvent.ptyResize pid cols rows]) else (st, [])
  | none => (st, [])

/-- TerminalManager.restartTerminal: no-op without a recorded project;
otherwise emit restarting, cleanup, and schedule the settle-delay restart. -/
def restartTerminal (st : ManagerState) (tabId terminalId : Nat) :
    ManagerState × List OutEvent :=
  match (st.tabs.get tabId).bind (fun ts => ts.terminalProjects.get terminalId) with
  | none => (st, [])
  | some projectPath =>
      let r := cleanupTerminal st tabId terminalId
      let st := r.1
      let tid := st.nextTimerId
      let st := { st with nextTimerId := tid + 1,
                          pending := st.pending.set tid
                            (TimerKind.restart tabId terminalId projectPath) }
      (st, OutEvent.restarting tabId terminalId :: r.2)

/-- TerminalManager.markBusy: clear the previous idle timer, flip to busy
(emitting status) if not already busy, and schedule a fresh idle timer. -/
def markBusy (st : ManagerState) (tabId terminalId : Nat) :
    ManagerState × List OutEvent :=
  match st.tabs.get tabId with
  | none => (st, [])
  | some ts0 =>
      let st :=
        match ts0.idleTimers.get terminalId with
        | some tid =>
            let ts1 := { ts0 with idleTimers := ts0.idleTimers.del terminalId }
            { st with pending := st.pending.del tid, tabs := st.tabs.set tabId ts1 }
        | none => st
      let r : ManagerState × List OutEvent :=
        match st.tabs.get tabId with
        | some ts =>
            if (ts.terminalBusy.get terminalId).getD false then (st, [])
            else
              let ts2 := { ts with terminalBusy := ts.terminalBusy.set terminalId true }
              ({ st with tabs := st.tabs.set tabId ts2 },
                [OutEvent.status tabId terminalId true])
        | none => (st, [])
      let st := r.1
      let tid := st.nextTimerId
      let st := { st with nextTimerId := tid + 1,
                          pending := st.pending.set tid (TimerKind.idle tabId terminalId) }
      let st := updateTab st tabId fun ts =>
        { ts with idleTimers := ts.idleTimers.set terminalId tid }
      (st, r.2)

/-- The onData handler registered in startTerminal: forward output, then markBusy. -/
def onPtyData (st : ManagerState) (tabId terminalId : Nat) (data : String) :
    ManagerState × List OutEvent :=
  let r := markBusy st tabId terminalId
  (r.1, OutEvent.output tabId terminalId data :: r.2)

/-- The idle-timer callback: re-fetch the tab by id, return if it is gone,
else mark idle, emit status, and drop the timer entry. -/
def fireIdle (st : ManagerState) (tabId terminalId : Nat) :
    ManagerState × List OutEvent :=
  match st.tabs.get tabId with
  | none => (st, [])
  | some ts =>
      let ts2 := { ts with terminalBusy := ts.terminalBusy.set terminalId false,
                           idleTimers := ts.idleTimers.del terminalId }
      ({ st with tabs := st.tabs.set tabId ts2 },
        [OutEvent.status tabId terminalId false])

/-- The bootstrap-timeout callback: if the slot still holds a pty, write the
claude command into the captured process; always drop the timeout entry. -/
def fireBootstrap (st : ManagerState) (tabId terminalId pid : Nat)
    (sessionId : Option String) : ManagerState × List OutEvent :=
  match st.tabs.get tabId with
  | none => (st, [])
  | some ts =>
      let evs := if ts.ptyProcesses.haskey terminalId
        then [OutEvent.ptyWrite pid (claudeCmd sessionId)] else []
      let ts2 := { ts with claudeCommandTimeouts := ts.claudeCommandTimeouts.del terminalId }
      ({ st with tabs := st.tabs.set tabId ts2 }, evs)

/-- Firing a scheduled timer: only a still-pending id can fire; firing
consumes it and runs the captured callback. -/
def fireTimer (st : ManagerState) (tid : Nat) (spawnOk : Bool) :
    ManagerState × List OutEvent :=
  match st.pending.get tid with
  | none => (st, [])
  | some kind =>
      let st := { st with pending := st.pending.del tid }
      match kind with
      | TimerKind.bootstrap tabId terminalId pid sessionId =>
          fireBootstrap st tabId terminalId pid sessionId
      | TimerKind.idle tabId terminalId => fireIdle st tabId terminalId
      | TimerKind.restart tabId terminalId projectPath =>
          startTerminal st tabId terminalId projectPath none false spawnOk

/-- TabManager.initializeFirstTab. -/
def initializeFirstTab (st : ManagerState) : ManagerState :=
  if st.tabs.size == 0 then { st with tabs := st.tabs.set 1 emptyTabState } else st

/-- TabManager.createTab. -/
def createTab (st : ManagerState) : ManagerState × List OutEvent :=
  let newTabId := st.nextTabId
  ({ st with nextTabId := newTabId + 1,
             tabs := st.tabs.set newTabId emptyTabState,
             activeTabId := newTabId },
    [OutEvent.tabCreated newTabId])

/-- TabManager.switchTab. -/
def switchTab (st : ManagerState) (tabId : Nat) : ManagerState × List OutEvent :=
  if st.tabs.haskey tabId then
    ({ st with activeTabId := tabId }, [OutEvent.tabSwitched tabId])
  else (st, [])

/-- TerminalManager.cleanupAllTerminalsInTab: cleanup every slot holding a pty. -/
def cleanupAllTerminalsInTab (st : ManagerState) (tabId : Nat) :
    ManagerState × List OutEvent :=
  match st.tabs.get tabId with
  | none => (st, [])
  | some ts =>
      ts.ptyProcesses.keys.foldl
        (fun acc terminalId =>
          let r := cleanupTerminal acc.1 tabId terminalId
          (r.1, acc.2 ++ r.2))
        (st, [])

/-- TabManager.closeTab.  `confirm` is the answer of the warning prompt,
consulted only when the tab has live terminals. -/
def closeTab (st : ManagerState) (tabId : Nat) (confirm : Bool) :
    ManagerState × List OutEvent :=
  match st.tabs.get tabId with
  | none => (st, [])
  | some ts =>
      if 0 < ts.ptyProcesses.size ∧ confirm = false then (st, [])
      else
        let r := cleanupAllTerminalsInTab st tabId
        let st := r.1
        let st := { st with tabs := st.tabs.del tabId }
        let st :=
          if st.activeTabId == tabId then
            match st.tabs.keys with
            | h :: _ => { st with activeTabId := h }
            | [] => { st with tabs := st.tabs.set 1 emptyTabState,
                              activeTabId := 1, nextTabId := 2 }
          else st
        (st, r.2 ++ [OutEvent.tabClosed tabId st.activeTabId])

/-- FileOperations.pickFilesForTerminal: write the chosen paths (an oracle)
into the slot's current pty, if any.  Only the pty write is core state. -/
def pickFilesForTerminal (st : ManagerState) (tabId terminalId : Nat)
    (paths : List String) : ManagerState × List OutEvent :=
  if paths.length > 0 then
    match (st.tabs.get tabId).bind (fun ts => ts.ptyProcesses.get terminalId) with
    | some pid => (st, [OutEvent.ptyWrite pid (String.intercalate " " paths)])
    | none => (st, [])
  else (st, [])

/-- isValidTerminalId: membership in the set {0,1,2,3}. -/
def isValidTerminalId (terminalId : Nat) : Bool :=
  [0, 1, 2, 3].contains terminalId

/-- `message.tabId || this.tabManager.activeTabId` on an optional field:
falsy (absent or 0) falls back to the active tab. -/
def resolveTabId (tabId : Option Nat) (active : Nat) : Nat :=
  match tabId with
  | none => active
  | some t => if t == 0 then active else t

/-- Inbound webview messages that reach core state (WebviewToExtensionMessage),
with the environment oracles they need. -/
inductive InMsg where
  | selectProject (tabId : Option Nat) (terminalId : Nat) (projectPath : String)
      (resume : Option String) (spawnOk : Bool)
  | input (tabId : Option Nat) (terminalId : Nat) (data : String)
  | resize (tabId : Option Nat) (terminalId : Nat) (cols rows : Int)
  | kill (tabId : Option Nat) (terminalId : Nat)
  | restart (tabId : Option Nat) (terminalId : Nat)
  | pickFiles (tabId : Option Nat) (terminalId : Nat) (paths : List String)
  | createTab
  | switchTab (tabId : Nat)
  | closeTab (tabId : Nat) (confirm : Bool)
deriving Repr, DecidableEq

/-- QuadTerminalViewProvider.handleMessage. -/
def handleMessage (st : ManagerState) (m : InMsg) : ManagerState × List OutEvent :=
  let activeTabId := st.activeTabId
  match m with
  | InMsg.selectProject tabId terminalId projectPath resume spawnOk =>
      if isValidTerminalId terminalId then
        startTerminal st (resolveTabId tabId activeTabId) terminalId projectPath
          resume false spawnOk
      else (st, [])
  | InMsg.input tabId terminalId data =>
      if isValidTerminalId terminalId then
        handleInput st (resolveTabId tabId activeTabId) terminalId data
      else (st, [])
  | InMsg.resize tabId terminalId cols rows =>
      if isValidTerminalId terminalId then
        handleResize st (resolveTabId tabId activeTabId) terminalId cols rows
      else (st, [])
  | InMsg.kill tabId terminalId =>
      if isValidTerminalId terminalId then
        killTerminal st (resolveTabId tabId activeTabId) terminalId
      else (st, [])
  | InMsg.restart tabId terminalId =>
      if isValidTerminalId terminalId then
        restartTerminal st (resolveTabId tabId activeTabId) terminalId
      else (st, [])
  | InMsg.pickFiles tabId terminalId paths =>
      if isValidTerminalId terminalId then
        pickFilesForTerminal st (resolveTabId tabId activeTabId) terminalId paths
      else (st, [])
  | InMsg.createTab => createTab st
  | InMsg.switchTab tabId => switchTab st tabId
  | InMsg.closeTab tabId confirm => closeTab st tabId confirm

/-- One event of the single-threaded cooperative loop: an inbound message,
a pty data/exit callback, or a timer expiry. -/
inductive Event where
  | msg (m : InMsg)
  | ptyData (tabId terminalId : Nat) (data : String)
  | ptyExit (tabId terminalId : Nat)
  | timerFire (tid : Nat) (spawnOk : Bool)
deriving Repr, DecidableEq

/-- Run one event to completion. -/
def step (st : ManagerState) (e : Event) : ManagerState × List OutEvent :=
  match e with
  | Event.msg m => handleMessage st m
  | Event.ptyData tabId terminalId data => onPtyData st tabId terminalId data
  | Event.ptyExit tabId terminalId => onPtyExit st tabId terminalId
  | Event.timerFire tid spawnOk => fireTimer st tid spawnOk

/-- Run a sequence of events, concatenating the emitted traces. -/
def run (st : ManagerState) : List Event → ManagerState × List OutEvent
  | [] => (st, [])
  | e :: evs =>
      let r := step st e
      let r2 := run r.1 evs
      (r2.1, r.2 ++ r2.2)

/-- The provider's state after resolveWebviewView: one empty tab with id 1. -/
def initState : ManagerState :=
  initializeFirstTab
    { tabs := [], activeTabId := 1, nextTabId := 2, nextPid := 0,
      nextTimerId := 0, pending := [] }

/-- Delete an optional key from a map. -/
def delOpt {β : Type} (m : JSMap β) : Option Nat → JSMap β
  | some k => m.del k
  | none => m

theorem mem_delOpt {β : Type} {m : JSMap β} {o : Option Nat} {q : Nat × β}
    (h : q ∈ delOpt m o) : q ∈ m := by
  cases o with
  | none => exact h
  | some k => exact JSMap.mem_del h

theorem cleanupTS_fst (ts : TabState) (pend : JSMap TimerKind) (s : Nat) :
    (cleanupTS ts pend s).1 =
      { ptyProcesses := ts.ptyProcesses.del s,
        terminalProjects := ts.terminalProjects.del s,
        idleTimers := ts.idleTimers.del s,
        terminalBusy := ts.terminalBusy.del s,
        claudeCommandTimeouts := ts.claudeCommandTimeouts.del s } := by
  cases h1 : ts.ptyProcesses.get s <;>
    cases h2 : ts.idleTimers.get s <;>
    cases h3 : ts.claudeCommandTimeouts.get s <;>
    simp [cleanupTS, h1, h2, h3, JSMap.del_of_get_none]

theorem cleanupTS_pend (ts : TabState) (pend : JSMap TimerKind) (s : Nat) :
    (cleanupTS ts pend s).2.1 =
      delOpt (delOpt pend (ts.idleTimers.get s)) (ts.claudeCommandTimeouts.get s) := by
  cases h1 : ts.ptyProcesses.get s <;>
    cases h2 : ts.idleTimers.get s <;>
    cases h3 : ts.claudeCommandTimeouts.get s <;>
    simp [cleanupTS, h1, h2, h3, delOpt]

theorem cleanupTS_events (ts : TabState) (pend : JSMap TimerKind) (s : Nat) :
    (cleanupTS ts pend s).2.2 =
      (match ts.ptyProcesses.get s with
        | some pid => [OutEvent.ptyKill pid]
        | none => []) := by
  cases h1 : ts.ptyProcesses.get s <;>
    cases h2 : ts.idleTimers.get s <;>
    cases h3 : ts.claudeCommandTimeouts.get s <;>
    simp [cleanupTS, h1, h2, h3]

theorem cleanupTS_pend_mem {ts : TabState} {pend : JSMap TimerKind} {s : Nat}
    {q : Nat × TimerKind} (h : q ∈ (cleanupTS ts pend s).2.1) : q ∈ pend := by
  rw [cleanupTS_pend] at h
  exact mem_delOpt (mem_delOpt h)

theorem cleanupTerminal_of_none {st : ManagerState} {t : Nat} (s : Nat)
    (h : st.tabs.get t = none) : cleanupTerminal st t s = (st, []) := by
  simp [cleanupTerminal, h]

theorem cleanupTerminal_of_some {st : ManagerState} {t : Nat} {ts : TabState} (s : Nat)
    (h : st.tabs.get t = some ts) :
    cleanupTerminal st t s =
      ({ st with tabs := st.tabs.set t (cleanupTS ts st.pending s).1,
                 pending := (cleanupTS ts st.pending s).2.1 },
        (cleanupTS ts st.pending s).2.2) := by
  simp [cleanupTerminal, h]

theorem cleanupTerminal_frame (st : ManagerState) (t s : Nat) :
    (cleanupTerminal st t s).1.activeTabId = st.activeTabId ∧
    (cleanupTerminal st t s).1.nextTabId = st.nextTabId ∧
    (cleanupTerminal st t s).1.nextPid = st.nextPid ∧
    (cleanupTerminal st t s).1.nextTimerId = st.nextTimerId := by
  cases h : st.tabs.get t with
  | none => simp [cleanupTerminal_of_none s h]
  | some ts => simp [cleanupTerminal_of_some s h]

theorem cleanupTerminal_keys (st : ManagerState) (t s : Nat) :
    (cleanupTerminal st t s).1.tabs.keys = st.tabs.keys := by
  cases h : st.tabs.get t with
  | none => simp [cleanupTerminal_of_none s h]
  | some ts =>
      have hmem : t ∈ st.tabs.keys := by
        rw [← JSMap.isSome_get_iff_mem_keys]
        simp [h]
      simp [cleanupTerminal_of_some s h, JSMap.keys_set_mem _ _ _ hmem]

theorem cleanupTerminal_get_ne (st : ManagerState) (t s tq : Nat) (h : tq ≠ t) :
    (cleanupTerminal st t s).1.tabs.get tq = st.tabs.get tq := by
  cases hg : st.tabs.get t with
  | none => simp [cleanupTerminal_of_none s hg]
  | some ts => simp [cleanupTerminal_of_some s hg, JSMap.get_set_ne _ _ _ _ h]

theorem cleanupTerminal_pend_mem {st : ManagerState} {t s : Nat}
    {q : Nat × TimerKind} (h : q ∈ (cleanupTerminal st t s).1.pending) :
    q ∈ st.pending := by
  cases hg : st.tabs.get t with
  | none =>
      rw [cleanupTerminal_of_none s hg] at h
      exact h
  | some ts =>
      rw [cleanupTerminal_of_some s hg] at h
      exact cleanupTS_pend_mem h

theorem cleanupTerminal_events (st : ManagerState) (t s : Nat)
    {e : OutEvent} (h : e ∈ (cleanupTerminal st t s).2) :
    ∃ pid, e = OutEvent.ptyKill pid := by
  cases hg : st.tabs.get t with
  | none =>
      rw [cleanupTerminal_of_none s hg] at h
      simp at h
  | some ts =>
      rw [cleanupTerminal_of_some s hg, cleanupTS_events] at h
      cases hp : ts.ptyProcesses.get s <;> simp [hp] at h
      exact ⟨_, h⟩

theorem cleanupTerminal_tab_mem {st : ManagerState} {t s : Nat}
    {p : Nat × TabState} (h : p ∈ (cleanupTerminal st t s).1.tabs) :
    p ∈ st.tabs ∨ ∃ ts, st.tabs.get t = some ts ∧ p = (t, (cleanupTS ts st.pending s).1) := by
  cases hg : st.tabs.get t with
  | none =>
      rw [cleanupTerminal_of_none s hg] at h
      exact Or.inl h
  | some ts =>
      rw [cleanupTerminal_of_some s hg] at h
      rcases JSMap.mem_set h with hh | hh
      · exact Or.inl hh
      · exact Or.inr ⟨ts, rfl, hh⟩

/-! Slot invariant: every occupied slot index is in [0,3] and slots are
unduplicated, in every tab and in every pending restart timer. -/

/-- Occupied slots of a tab are legal (indices below 4) and unduplicated. -/
def TabOk (ts : TabState) : Prop :=
  (∀ k ∈ ts.ptyProcesses.keys, k < 4) ∧ ts.ptyProcesses.keys.Nodup

instance (ts : TabState) : Decidable (TabOk ts) :=
  inferInstanceAs
    (Decidable ((∀ k ∈ ts.ptyProcesses.keys, k < 4) ∧ ts.ptyProcesses.keys.Nodup))

/-- A pending restart timer only targets a legal slot. -/
def timerSlotOk : TimerKind → Prop
  | TimerKind.restart _ s _ => s < 4
  | _ => True

instance : DecidablePred timerSlotOk := fun k =>
  match k with
  | TimerKind.bootstrap _ _ _ _ => isTrue trivial
  | TimerKind.idle _ _ => isTrue trivial
  | TimerKind.restart _ s _ => Nat.decLt s 4

/-- The slot invariant over the whole orchestrator state. -/
def SlotInv (st : ManagerState) : Prop :=
  (∀ p ∈ st.tabs, TabOk p.2) ∧ ∀ q ∈ st.pending, timerSlotOk q.2

instance (st : ManagerState) : Decidable (SlotInv st) :=
  inferInstanceAs
    (Decidable ((∀ p ∈ st.tabs, TabOk p.2) ∧ ∀ q ∈ st.pending, timerSlotOk q.2))

theorem TabOk_of_get {st : ManagerState} {t : Nat} {ts : TabState}
    (h : SlotInv st) (hg : st.tabs.get t = some ts) : TabOk ts :=
  h.1 _ (JSMap.get_eq_some_mem hg)

/-- The slot invariant only looks at the tab map and the pending timers. -/
theorem SlotInv_of_parts {st st' : ManagerState} (h : SlotInv st)
    (ht : st'.tabs = st.tabs) (hp : st'.pending = st.pending) : SlotInv st' := by
  constructor
  · rw [ht]; exact h.1
  · rw [hp]; exact h.2

/-- TabOk only looks at the pty map. -/
theorem TabOk_of_pty_eq {ts ts' : TabState}
    (hk : TabOk ts) (h : ts'.ptyProcesses = ts.ptyProcesses) : TabOk ts' := by
  unfold TabOk
  rw [h]
  exact hk

theorem mem_keys_set {β : Type} {m : JSMap β} {k kq : Nat} {v : β}
    (h : kq ∈ JSMap.keys (JSMap.set m k v)) : kq ∈ JSMap.keys m ∨ kq = k := by
  by_cases hk : k ∈ JSMap.keys m
  · rw [JSMap.keys_set_mem m k v hk] at h
    exact Or.inl h
  · rw [JSMap.keys_set_not_mem m k v hk] at h
    simpa using h

theorem TabOk_cleanupTS (ts : TabState) (pend : JSMap TimerKind) (s : Nat)
    (h : TabOk ts) : TabOk (cleanupTS ts pend s).1 := by
  rw [cleanupTS_fst]
  constructor
  · intro k hk
    exact h.1 k ((JSMap.mem_keys_del _ _ _).mp hk).1
  · exact JSMap.nodup_keys_del _ _ h.2

theorem SlotInv_cleanupTerminal {st : ManagerState} (t s : Nat)
    (h : SlotInv st) : SlotInv (cleanupTerminal st t s).1 := by
  constructor
  · intro p hp
    rcases cleanupTerminal_tab_mem hp with hh | ⟨ts, hg, rfl⟩
    · exact h.1 _ hh
    · exact TabOk_cleanupTS ts st.pending s (TabOk_of_get h hg)
  · intro q hq
    exact h.2 _ (cleanupTerminal_pend_mem hq)

theorem SlotInv_updateTab {st : ManagerState} {t : Nat} {f : TabState → TabState}
    (h : SlotInv st) (hf : ∀ ts, TabOk ts → TabOk (f ts)) :
    SlotInv (updateTab st t f) := by
  unfold updateTab
  cases hg : st.tabs.get t with
  | none => exact h
  | some ts =>
      constructor
      · intro p hp
        rcases JSMap.mem_set hp with hh | rfl
        · exact h.1 _ hh
        · exact hf ts (TabOk_of_get h hg)
      · exact h.2

theorem SlotInv_startTerminal {st : ManagerState} {t s : Nat}
    (path : String) (sess : Option String) (skip ok : Bool)
    (h : SlotInv st) (hs : s < 4) :
    SlotInv (startTerminal st t s path sess skip ok).1 := by
  unfold startTerminal
  cases hg : st.tabs.get t with
  | none => exact h
  | some ts0 =>
      simp only
      have h1 : SlotInv (cleanupTerminal st t s).1 := SlotInv_cleanupTerminal t s h
      by_cases hok : ok
      · simp only [hok, if_true]
        have h2 : SlotInv (updateTab
            { (cleanupTerminal st t s).1 with
              nextPid := (cleanupTerminal st t s).1.nextPid + 1 } t
            fun ts => { ts with
              ptyProcesses := ts.ptyProcesses.set s (cleanupTerminal st t s).1.nextPid,
              terminalProjects := ts.terminalProjects.set s path }) := by
          refine SlotInv_updateTab (SlotInv_of_parts h1 ?_ ?_) ?_
          · rfl
          · rfl
          intro ts hts
          constructor
          · intro k hk
            rcases mem_keys_set hk with hh | rfl
            · exact hts.1 k hh
            · exact hs
          · exact JSMap.nodup_keys_set _ _ _ hts.2
        by_cases hskip : skip
        · simpa [hskip] using h2
        · simp only [hskip, if_false, Bool.false_eq_true]
          apply SlotInv_updateTab
          · constructor
            · exact h2.1
            · intro q hq
              rcases JSMap.mem_set hq with hh | rfl
              · exact h2.2 _ hh
              · trivial
          · intro ts hts
            exact hts
      · simp only [hok, if_false, Bool.false_eq_true]
        exact h1

theorem SlotInv_killTerminal {st : ManagerState} (t s : Nat)
    (h : SlotInv st) : SlotInv (killTerminal st t s).1 := by
  unfold killTerminal
  cases hg : (st.tabs.get t).bind (fun ts => ts.ptyProcesses.get s) with
  | none => exact h
  | some pid => exact SlotInv_cleanupTerminal t s h

theorem SlotInv_onPtyExit {st : ManagerState} (t s : Nat)
    (h : SlotInv st) : SlotInv (onPtyExit st t s).1 :=
  SlotInv_cleanupTerminal t s h

theorem SlotInv_restartTerminal {st : ManagerState} {t s : Nat}
    (h : SlotInv st) (hs : s < 4) : SlotInv (restartTerminal st t s).1 := by
  unfold restartTerminal
  cases hg : (st.tabs.get t).bind (fun ts => ts.terminalProjects.get s) with
  | none => exact h
  | some path =>
      simp only
      have h1 := SlotInv_cleanupTerminal t s h
      constructor
      · exact h1.1
      · intro q hq
        rcases JSMap.mem_set hq with hh | rfl
        · exact h1.2 _ hh
        · exact hs

theorem SlotInv_markBusy {st : ManagerState} (t s : Nat)
    (h : SlotInv st) : SlotInv (markBusy st t s).1 := by
  unfold markBusy
  cases hg : st.tabs.get t with
  | none => exact h
  | some ts0 =>
      simp only
      have h1 : SlotInv
          (match ts0.idleTimers.get s with
            | some tid =>
                let ts1 := { ts0 with idleTimers := ts0.idleTimers.del s }
                { st with pending := st.pending.del tid, tabs := st.tabs.set t ts1 }
            | none => st) := by
        cases hi : ts0.idleTimers.get s with
        | none => exact h
        | some tid =>
            constructor
            · intro p hp
              rcases JSMap.mem_set hp with hh | rfl
              · exact h.1 _ hh
              · refine TabOk_of_pty_eq (TabOk_of_get h hg) ?_
                rfl
            · intro q hq
              exact h.2 _ (JSMap.mem_del hq)
      generalize hst1 :
        (match ts0.idleTimers.get s with
          | some tid =>
              let ts1 := { ts0 with idleTimers := ts0.idleTimers.del s }
              { st with pending := st.pending.del tid, tabs := st.tabs.set t ts1 }
          | none => st) = st1 at h1
      have h2 : SlotInv
          (match st1.tabs.get t with
            | some ts =>
                if (ts.terminalBusy.get s).getD false then (st1, ([] : List OutEvent))
                else
                  let ts2 := { ts with terminalBusy := ts.terminalBusy.set s true }
                  ({ st1 with tabs := st1.tabs.set t ts2 },
                    [OutEvent.status t s true])
            | none => (st1, [])).1 := by
        cases hg1 : st1.tabs.get t with
        | none => exact h1
        | some ts =>
            by_cases hb : (ts.terminalBusy.get s).getD false
            · simpa [hb] using h1
            · simp only [hb, if_false, Bool.false_eq_true]
              constructor
              · intro p hp
                rcases JSMap.mem_set hp with hh | rfl
                · exact h1.1 _ hh
                · refine TabOk_of_pty_eq (TabOk_of_get h1 hg1) ?_
                  rfl
              · exact h1.2
      apply SlotInv_updateTab
      · constructor
        · exact h2.1
        · intro q hq
          rcases JSMap.mem_set hq with hh | rfl
          · exact h2.2 _ hh
          · trivial
      · intro ts hts
        exact hts

theorem SlotInv_fireIdle {st : ManagerState} (t s : Nat)
    (h : SlotInv st) : SlotInv (fireIdle st t s).1 := by
  unfold fireIdle
  cases hg : st.tabs.get t with
  | none => exact h
  | some ts =>
      simp only
      constructor
      · intro p hp
        rcases JSMap.mem_set hp with hh | rfl
        · exact h.1 _ hh
        · refine TabOk_of_pty_eq (TabOk_of_get h hg) ?_
          rfl
      · exact h.2

theorem SlotInv_fireBootstrap {st : ManagerState} (t s pid : Nat)
    (sess : Option String) (h : SlotInv st) :
    SlotInv (fireBootstrap st t s pid sess).1 := by
  unfold fireBootstrap
  cases hg : st.tabs.get t with
  | none => exact h
  | some ts =>
      simp only
      constructor
      · intro p hp
        rcases JSMap.mem_set hp with hh | rfl
        · exact h.1 _ hh
        · refine TabOk_of_pty_eq (TabOk_of_get h hg) ?_
          rfl
      · exact h.2

theorem SlotInv_createTab {st : ManagerState} (h : SlotInv st) :
    SlotInv (createTab st).1 := by
  unfold createTab
  constructor
  · intro p hp
    rcases JSMap.mem_set hp with hh | rfl
    · exact h.1 _ hh
    · exact ⟨by simp [emptyTabState, JSMap.keys], by simp [emptyTabState, JSMap.keys]⟩
  · exact h.2

theorem SlotInv_switchTab {st : ManagerState} (t : Nat) (h : SlotInv st) :
    SlotInv (switchTab st t).1 := by
  unfold switchTab
  by_cases hh : st.tabs.haskey t <;> simp [hh] <;> exact ⟨h.1, h.2⟩

theorem SlotInv_cleanupFold (t : Nat) (l : List Nat) :
    ∀ (st : ManagerState) (evs : List OutEvent), SlotInv st →
      SlotInv (l.foldl
        (fun acc terminalId =>
          let r := cleanupTerminal acc.1 t terminalId
          (r.1, acc.2 ++ r.2)) (st, evs)).1 := by
  induction l with
  | nil => intro st evs h; exact h
  | cons s l ih =>
      intro st evs h
      exact ih _ _ (SlotInv_cleanupTerminal t s h)

theorem SlotInv_cleanupAll {st : ManagerState} (t : Nat) (h : SlotInv st) :
    SlotInv (cleanupAllTerminalsInTab st t).1 := by
  unfold cleanupAllTerminalsInTab
  cases hg : st.tabs.get t with
  | none => exact h
  | some ts => exact SlotInv_cleanupFold t _ st [] h

theorem SlotInv_closeTab {st : ManagerState} (t : Nat) (confirm : Bool)
    (h : SlotInv st) : SlotInv (closeTab st t confirm).1 := by
  unfold closeTab
  cases hg : st.tabs.get t with
  | none => exact h
  | some ts =>
      simp only
      by_cases hc : 0 < ts.ptyProcesses.size ∧ confirm = false
      · simp only [hc, if_true]
        exact h
      · simp only [hc, if_false]
        have h1 := SlotInv_cleanupAll t h
        have h2 : SlotInv { (cleanupAllTerminalsInTab st t).1 with
            tabs := (cleanupAllTerminalsInTab st t).1.tabs.del t } := by
          constructor
          · intro p hp
            exact h1.1 _ (JSMap.mem_del hp)
          · exact h1.2
        split
        · split
          · exact SlotInv_of_parts h2 rfl rfl
          · constructor
            · intro p hp
              rcases JSMap.mem_set hp with hh | rfl
              · exact h2.1 _ hh
              · exact ⟨by simp [emptyTabState, JSMap.keys],
                  by simp [emptyTabState, JSMap.keys]⟩
            · exact h2.2
        · exact SlotInv_of_parts h2 rfl rfl

theorem handleInput_state (st : ManagerState) (t s : Nat) (d : String) :
    (handleInput st t s d).1 = st := by
  unfold handleInput
  cases (st.tabs.get t).bind (fun ts => ts.ptyProcesses.get s) <;> rfl

theorem handleResize_state (st : ManagerState) (t s : Nat) (c r : Int) :
    (handleResize st t s c r).1 = st := by
  unfold handleResize
  cases (st.tabs.get t).bind (fun ts => ts.ptyProcesses.get s) with
  | none => rfl
  | some pid =>
      by_cases hc : c > 0 ∧ r > 0 <;> simp [hc]

theorem pickFiles_state (st : ManagerState) (t s : Nat) (paths : List String) :
    (pickFilesForTerminal st t s paths).1 = st := by
  unfold pickFilesForTerminal
  by_cases hp : paths.length > 0
  · simp only [hp, if_true]
    cases (st.tabs.get t).bind (fun ts => ts.ptyProcesses.get s) <;> rfl
  · simp [hp]

theorem lt_four_of_valid {s : Nat} (h : isValidTerminalId s = true) : s < 4 := by
  simp [isValidTerminalId] at h
  omega

theorem SlotInv_handleMessage {st : ManagerState} (m : InMsg)
    (h : SlotInv st) : SlotInv (handleMessage st m).1 := by
  cases m with
  | selectProject tabId s path resume ok =>
      unfold handleMessage
      by_cases hv : isValidTerminalId s
      · simp only [hv, if_true]
        exact SlotInv_startTerminal path resume false ok h (lt_four_of_valid hv)
      · simp [hv]; exact h
  | input tabId s d =>
      unfold handleMessage
      by_cases hv : isValidTerminalId s
      · simp only [hv, if_true]
        rw [handleInput_state]
        exact h
      · simp [hv]; exact h
  | resize tabId s c r =>
      unfold handleMessage
      by_cases hv : isValidTerminalId s
      · simp only [hv, if_true]
        rw [handleResize_state]
        exact h
      · simp [hv]; exact h
  | kill tabId s =>
      unfold handleMessage
      by_cases hv : isValidTerminalId s
      · simp only [hv, if_true]
        exact SlotInv_killTerminal _ s h
      · simp [hv]; exact h
  | restart tabId s =>
      unfold handleMessage
      by_cases hv : isValidTerminalId s
      · simp only [hv, if_true]
        exact SlotInv_restartTerminal h (lt_four_of_valid hv)
      · simp [hv]; exact h
  | pickFiles tabId s paths =>
      unfold handleMessage
      by_cases hv : isValidTerminalId s
      · simp only [hv, if_true]
        rw [pickFiles_state]
        exact h
      · simp [hv]; exact h
  | createTab => exact SlotInv_createTab h
  | switchTab tabId => exact SlotInv_switchTab tabId h
  | closeTab tabId confirm => exact SlotInv_closeTab tabId confirm h

theorem SlotInv_fireTimer {st : ManagerState} (tid : Nat) (ok : Bool)
    (h : SlotInv st) : SlotInv (fireTimer st tid ok).1 := by
  unfold fireTimer
  cases hg : st.pending.get tid with
  | none => exact h
  | some kind =>
      have hdel : SlotInv { st with pending := st.pending.del tid } := by
        constructor
        · exact h.1
        · intro q hq
          exact h.2 _ (JSMap.mem_del hq)
      cases kind with
      | bootstrap t s pid sess => exact SlotInv_fireBootstrap t s pid sess hdel
      | idle t s => exact SlotInv_fireIdle t s hdel
      | restart t s path =>
          have hs : s < 4 := h.2 _ (JSMap.get_eq_some_mem hg)
          exact SlotInv_startTerminal path none false ok hdel hs

theorem SlotInv_step {st : ManagerState} (e : Event) (h : SlotInv st) :
    SlotInv (step st e).1 := by
  cases e with
  | msg m => exact SlotInv_handleMessage m h
  | ptyData t s d =>
      unfold step onPtyData
      exact SlotInv_markBusy t s h
  | ptyExit t s => exact SlotInv_onPtyExit t s h
  | timerFire tid ok => exact SlotInv_fireTimer tid ok h

theorem length_le_four {l : List Nat} (h4 : ∀ k ∈ l, k < 4) (hd : l.Nodup) :
    l.length ≤ 4 := by
  have hsub : l ⊆ [0, 1, 2, 3] := by
    intro k hk
    have := h4 k hk
    simp only [List.mem_cons, List.mem_singleton]
    omega
  simpa using (List.subperm_of_subset hd hsub).length_le

/-- C5: every event handler preserves the slot invariant, so in every tab the
occupied slots stay inside {0,1,2,3} and there are at most 4 of them;
messages with slot ids outside [0,3] never create a session. -/
theorem c5_at_most_four_slots (st : ManagerState) (e : Event) (h : SlotInv st) :
    SlotInv (step st e).1 ∧
    ∀ p ∈ (step st e).1.tabs,
      (∀ k ∈ p.2.ptyProcesses.keys, k < 4) ∧ p.2.ptyProcesses.size ≤ 4 := by
  have hstep := SlotInv_step e h
  refine ⟨hstep, fun p hp => ?_⟩
  have hok := hstep.1 p hp
  exact ⟨hok.1, by
    rw [JSMap.size_eq_keys_length]
    exact length_le_four hok.1 hok.2⟩

theorem c5_at_most_four_slots_witness :
    SlotInv initState ∧
    (SlotInv (step initState (Event.msg (InMsg.selectProject none 0 "/p" none true))).1 ∧
      ∀ p ∈ (step initState (Event.msg (InMsg.selectProject none 0 "/p" none true))).1.tabs,
        (∀ k ∈ p.2.ptyProcesses.keys, k < 4) ∧ p.2.ptyProcesses.size ≤ 4) :=
  ⟨by decide,
    c5_at_most_four_slots initState (Event.msg (InMsg.selectProject none 0 "/p" none true))
      (by decide)⟩

theorem killTerminal_of_none {st : ManagerState} {t s : Nat}
    (h : ((st.tabs.get t).bind fun ts => ts.ptyProcesses.get s) = none) :
    killTerminal st t s = (st, []) := by
  unfold killTerminal
  rw [h]

theorem killTerminal_of_some {st : ManagerState} {t s pid : Nat}
    (h : ((st.tabs.get t).bind fun ts => ts.ptyProcesses.get s) = some pid) :
    killTerminal st t s =
      ((cleanupTerminal st t s).1,
        (cleanupTerminal st t s).2 ++ [OutEvent.killed t s]) := by
  unfold killTerminal
  rw [h]

/-- C3: kill is idempotent.  On an occupied slot, two successive killTerminal
calls emit exactly one killed event, the second call is a no-op, and the slot
is empty afterwards; killTerminal on an empty slot changes nothing and emits
nothing. -/
theorem c3_kill_idempotent (st : ManagerState) (t s : Nat) :
    (∀ pid, ((st.tabs.get t).bind fun ts => ts.ptyProcesses.get s) = some pid →
      (((killTerminal st t s).2 ++ (killTerminal (killTerminal st t s).1 t s).2).count
          (OutEvent.killed t s) = 1 ∧
        (((killTerminal st t s).1.tabs.get t).bind
          (fun ts => ts.ptyProcesses.get s)) = none ∧
        killTerminal (killTerminal st t s).1 t s = ((killTerminal st t s).1, []))) ∧
    (((st.tabs.get t).bind fun ts => ts.ptyProcesses.get s) = none →
      killTerminal st t s = (st, [])) := by
  constructor
  · intro pid hocc
    cases hg : st.tabs.get t with
    | none => rw [hg] at hocc; simp at hocc
    | some ts =>
        have hk1 := killTerminal_of_some hocc
        have hget1 : (cleanupTerminal st t s).1.tabs.get t =
            some (cleanupTS ts st.pending s).1 := by
          rw [cleanupTerminal_of_some s hg]
          exact JSMap.get_set_self _ _ _
        have hempty : (((killTerminal st t s).1.tabs.get t).bind
            (fun ts => ts.ptyProcesses.get s)) = none := by
          rw [hk1]
          simp only [hget1, Option.some_bind]
          rw [cleanupTS_fst]
          exact JSMap.get_del_self _ _
        have hk2 : killTerminal (killTerminal st t s).1 t s =
            ((killTerminal st t s).1, []) := killTerminal_of_none hempty
        refine ⟨?_, hempty, hk2⟩
        rw [hk2, hk1]
        simp only [List.count_append]
        have hzero : (cleanupTerminal st t s).2.count (OutEvent.killed t s) = 0 := by
          rw [List.count_eq_zero]
          intro hmem
          rcases cleanupTerminal_events st t s hmem with ⟨pid2, hpid⟩
          simp at hpid
        simp [hzero]
  · intro hocc
    exact killTerminal_of_none hocc

theorem c3_kill_idempotent_witness :
    ∀ pid, (((step initState
          (Event.msg (InMsg.selectProject none 0 "/p" none true))).1.tabs.get 1).bind
        (fun ts => ts.ptyProcesses.get 0)) = some pid →
      (((killTerminal (step initState
            (Event.msg (InMsg.selectProject none 0 "/p" none true))).1 1 0).2 ++
          (killTerminal (killTerminal (step initState
            (Event.msg (InMsg.selectProject none 0 "/p" none true))).1 1 0).1 1 0).2).count
          (OutEvent.killed 1 0) = 1 ∧
        (((killTerminal (step initState
            (Event.msg (InMsg.selectProject none 0 "/p" none true))).1 1 0).1.tabs.get 1).bind
          (fun ts => ts.ptyProcesses.get 0)) = none ∧
        killTerminal (killTerminal (step initState
            (Event.msg (InMsg.selectProject none 0 "/p" none true))).1 1 0).1 1 0 =
          ((killTerminal (step initState
            (Event.msg (InMsg.selectProject none 0 "/p" none true))).1 1 0).1, [])) :=
  (c3_kill_idempotent
    (step initState (Event.msg (InMsg.selectProject none 0 "/p" none true))).1 1 0).1

/-- C4: declining the confirmation prompt on a tab with live sessions makes
closeTab return the state unchanged with no events: no kill, no emission,
tab map, active id and allocator untouched. -/
theorem c4_decline_aborts (st : ManagerState) (t : Nat) (ts : TabState)
    (hg : st.tabs.get t = some ts) (hlive : 0 < ts.ptyProcesses.size) :
    closeTab st t false = (st, []) := by
  unfold closeTab
  rw [hg]
  simp [hlive]

theorem c4_decline_aborts_witness :
    ((step initState
        (Event.msg (InMsg.selectProject none 0 "/p" none true))).1.tabs.get 1).isSome = true ∧
    closeTab (step initState
        (Event.msg (InMsg.selectProject none 0 "/p" none true))).1 1 false =
      ((step initState (Event.msg (InMsg.selectProject none 0 "/p" none true))).1, []) := by
  refine ⟨by decide, ?_⟩
  exact c4_decline_aborts _ 1 ⟨[(0, 0)], [(0, "/p")], [], [], [(0, 0)]⟩ (by decide) (by decide)

/-- C6: a spontaneous pty exit of the current occupant of a slot runs exactly
the cleanup-then-killed path of an explicit kill: the handlers return
identical states and identical event lists. -/
theorem c6_exit_equals_kill (st : ManagerState) (t s pid : Nat)
    (hocc : ((st.tabs.get t).bind fun ts => ts.ptyProcesses.get s) = some pid) :
    onPtyExit st t s = killTerminal st t s := by
  unfold onPtyExit killTerminal
  rw [hocc]

theorem c6_exit_equals_kill_witness :
    onPtyExit (step initState
        (Event.msg (InMsg.selectProject none 0 "/p" none true))).1 1 0 =
      killTerminal (step initState
        (Event.msg (InMsg.selectProject none 0 "/p" none true))).1 1 0 :=
  c6_exit_equals_kill _ 1 0 0 (by decide)

/-- C7: switchTab is a no-op on an unknown id; on a known id it only moves the
active-tab pointer and emits tabSwitched; in both cases the tab map and the
pending timers (hence every session's process, project, busy flag and timers)
are untouched. -/
theorem c7_switchTab_frame (st : ManagerState) (t : Nat) :
    (t ∉ st.tabs.keys → switchTab st t = (st, [])) ∧
    (t ∈ st.tabs.keys →
      switchTab st t = ({ st with activeTabId := t }, [OutEvent.tabSwitched t])) ∧
    (switchTab st t).1.tabs = st.tabs ∧
    (switchTab st t).1.pending = st.pending ∧
    (switchTab st t).1.nextPid = st.nextPid ∧
    (switchTab st t).1.nextTimerId = st.nextTimerId := by
  unfold switchTab
  by_cases hk : st.tabs.haskey t
  · have hm : t ∈ st.tabs.keys := (JSMap.haskey_iff_mem_keys _ _).mp hk
    simp [hk, hm]
  · have hm : t ∉ st.tabs.keys := fun hmem =>
      hk ((JSMap.haskey_iff_mem_keys _ _).mpr hmem)
    simp [hk, hm]

theorem c7_switchTab_frame_witness :
    (2 ∈ (createTab initState).1.tabs.keys →
      switchTab (createTab initState).1 2 =
        ({ (createTab initState).1 with activeTabId := 2 },
          [OutEvent.tabSwitched 2])) ∧
    (5 ∉ (createTab initState).1.tabs.keys →
      switchTab (createTab initState).1 5 = ((createTab initState).1, [])) :=
  ⟨(c7_switchTab_frame (createTab initState).1 2).2.1,
    (c7_switchTab_frame (createTab initState).1 5).1⟩

/-- C10: an idle timer whose tab has been deleted is harmless: the callback
re-fetches the tab by id and returns — no state change beyond consuming the
timer, and no status event. -/
theorem c10_stale_idle_timer_harmless (st : ManagerState) (t s : Nat)
    (h : st.tabs.get t = none) :
    fireIdle st t s = (st, []) ∧
    ∀ tid ok, st.pending.get tid = some (TimerKind.idle t s) →
      (fireTimer st tid ok).1 = { st with pending := st.pending.del tid } ∧
      (fireTimer st tid ok).2 = [] := by
  constructor
  · unfold fireIdle
    rw [h]
  · intro tid ok htid
    unfold fireTimer
    rw [htid]
    simp only
    unfold fireIdle
    simp [h]

def staleIdleState : ManagerState :=
  { tabs := [(1, emptyTabState)], activeTabId := 1, nextTabId := 2,
    nextPid := 0, nextTimerId := 1, pending := [(0, TimerKind.idle 7 0)] }

theorem c10_stale_idle_timer_harmless_witness :
    fireIdle staleIdleState 7 0 = (staleIdleState, []) ∧
    (fireTimer staleIdleState 0 true).2 = [] := by
  have h := c10_stale_idle_timer_harmless staleIdleState 7 0 (by decide)
  exact ⟨h.1, (h.2 0 true (by decide)).2⟩

/-! Frame facts: session-level operations never change the set of tab ids,
the active tab, or the tab-id allocator. -/

/-- st' has the same tab ids, active tab and allocator as st. -/
def TabFrame (st st' : ManagerState) : Prop :=
  st'.tabs.keys = st.tabs.keys ∧ st'.activeTabId = st.activeTabId ∧
    st'.nextTabId = st.nextTabId

theorem TabFrame.refl (st : ManagerState) : TabFrame st st := ⟨rfl, rfl, rfl⟩

theorem TabFrame.trans {a b c : ManagerState} (h1 : TabFrame a b)
    (h2 : TabFrame b c) : TabFrame a c :=
  ⟨h2.1.trans h1.1, h2.2.1.trans h1.2.1, h2.2.2.trans h1.2.2⟩

theorem updateTab_keys (st : ManagerState) (t : Nat) (f : TabState → TabState) :
    (updateTab st t f).tabs.keys = st.tabs.keys := by
  unfold updateTab
  cases hg : st.tabs.get t with
  | none => rfl
  | some ts =>
      have hmem : t ∈ st.tabs.keys := by
        rw [← JSMap.isSome_get_iff_mem_keys]
        simp [hg]
      simp [JSMap.keys_set_mem _ _ _ hmem]

theorem updateTab_active (st : ManagerState) (t : Nat) (f : TabState → TabState) :
    (updateTab st t f).activeTabId = st.activeTabId := by
  unfold updateTab
  cases st.tabs.get t <;> rfl

theorem updateTab_nextTabId (st : ManagerState) (t : Nat) (f : TabState → TabState) :
    (updateTab st t f).nextTabId = st.nextTabId := by
  unfold updateTab
  cases st.tabs.get t <;> rfl

theorem updateTab_nextPid (st : ManagerState) (t : Nat) (f : TabState → TabState) :
    (updateTab st t f).nextPid = st.nextPid := by
  unfold updateTab
  cases st.tabs.get t <;> rfl

theorem updateTab_nextTimerId (st : ManagerState) (t : Nat) (f : TabState → TabState) :
    (updateTab st t f).nextTimerId = st.nextTimerId := by
  unfold updateTab
  cases st.tabs.get t <;> rfl

theorem updateTab_pending (st : ManagerState) (t : Nat) (f : TabState → TabState) :
    (updateTab st t f).pending = st.pending := by
  unfold updateTab
  cases st.tabs.get t <;> rfl

theorem TabFrame_cleanupTerminal (st : ManagerState) (t s : Nat) :
    TabFrame st (cleanupTerminal st t s).1 :=
  ⟨cleanupTerminal_keys st t s, (cleanupTerminal_frame st t s).1,
    (cleanupTerminal_frame st t s).2.1⟩

theorem cleanupTerminal_active (st : ManagerState) (t s : Nat) :
    (cleanupTerminal st t s).1.activeTabId = st.activeTabId :=
  (cleanupTerminal_frame st t s).1

theorem cleanupTerminal_nextTabId (st : ManagerState) (t s : Nat) :
    (cleanupTerminal st t s).1.nextTabId = st.nextTabId :=
  (cleanupTerminal_frame st t s).2.1

theorem cleanupTerminal_nextPid (st : ManagerState) (t s : Nat) :
    (cleanupTerminal st t s).1.nextPid = st.nextPid :=
  (cleanupTerminal_frame st t s).2.2.1

theorem cleanupTerminal_nextTimerId (st : ManagerState) (t s : Nat) :
    (cleanupTerminal st t s).1.nextTimerId = st.nextTimerId :=
  (cleanupTerminal_frame st t s).2.2.2

theorem TabFrame_updateTab (st : ManagerState) (t : Nat) (f : TabState → TabState) :
    TabFrame st (updateTab st t f) :=
  ⟨updateTab_keys st t f, updateTab_active st t f, updateTab_nextTabId st t f⟩

theorem TabFrame_startTerminal (st : ManagerState) (t s : Nat) (path : String)
    (sess : Option String) (skip ok : Bool) :
    TabFrame st (startTerminal st t s path sess skip ok).1 := by
  unfold startTerminal
  cases hg : st.tabs.get t with
  | none => exact TabFrame.refl st
  | some ts0 =>
      simp only
      by_cases hok : ok
      all_goals by_cases hskip : skip
      all_goals refine ⟨?_, ?_, ?_⟩
      all_goals simp [hok, hskip, updateTab_keys, updateTab_active,
        updateTab_nextTabId, cleanupTerminal_keys, cleanupTerminal_active,
        cleanupTerminal_nextTabId]

theorem TabFrame_killTerminal (st : ManagerState) (t s : Nat) :
    TabFrame st (killTerminal st t s).1 := by
  unfold killTerminal
  cases (st.tabs.get t).bind (fun ts => ts.ptyProcesses.get s) with
  | none => exact TabFrame.refl st
  | some pid => exact TabFrame_cleanupTerminal st t s

theorem TabFrame_onPtyExit (st : ManagerState) (t s : Nat) :
    TabFrame st (onPtyExit st t s).1 :=
  TabFrame_cleanupTerminal st t s

theorem TabFrame_restartTerminal (st : ManagerState) (t s : Nat) :
    TabFrame st (restartTerminal st t s).1 := by
  unfold restartTerminal
  cases (st.tabs.get t).bind (fun ts => ts.terminalProjects.get s) with
  | none => exact TabFrame.refl st
  | some path =>
      refine ⟨?_, ?_, ?_⟩ <;>
        simp [cleanupTerminal_keys, cleanupTerminal_active, cleanupTerminal_nextTabId]

theorem TabFrame_markBusy (st : ManagerState) (t s : Nat) :
    TabFrame st (markBusy st t s).1 := by
  unfold markBusy
  cases hg : st.tabs.get t with
  | none => exact TabFrame.refl st
  | some ts0 =>
      simp only
      have hmem : t ∈ st.tabs.keys := by
        rw [← JSMap.isSome_get_iff_mem_keys]
        simp [hg]
      have hf1 : TabFrame st
          (match ts0.idleTimers.get s with
            | some tid =>
                let ts1 := { ts0 with idleTimers := ts0.idleTimers.del s }
                { st with pending := st.pending.del tid, tabs := st.tabs.set t ts1 }
            | none => st) := by
        cases ts0.idleTimers.get s with
        | none => exact TabFrame.refl st
        | some tid => exact ⟨JSMap.keys_set_mem _ _ _ hmem, rfl, rfl⟩
      refine hf1.trans ?_
      generalize (match ts0.idleTimers.get s with
        | some tid =>
            let ts1 := { ts0 with idleTimers := ts0.idleTimers.del s }
            { st with pending := st.pending.del tid, tabs := st.tabs.set t ts1 }
        | none => st) = st1
      have hf2 : TabFrame st1
          (match st1.tabs.get t with
            | some ts =>
                if (ts.terminalBusy.get s).getD false then (st1, ([] : List OutEvent))
                else
                  let ts2 := { ts with terminalBusy := ts.terminalBusy.set s true }
                  ({ st1 with tabs := st1.tabs.set t ts2 },
                    [OutEvent.status t s true])
            | none => (st1, [])).1 := by
        cases hg1 : st1.tabs.get t with
        | none => exact TabFrame.refl st1
        | some ts =>
            by_cases hb : (ts.terminalBusy.get s).getD false
            · simp only [hb, if_true]
              exact TabFrame.refl st1
            · simp only [hb, if_false, Bool.false_eq_true]
              have hmem1 : t ∈ st1.tabs.keys := by
                rw [← JSMap.isSome_get_iff_mem_keys]
                simp [hg1]
              exact ⟨JSMap.keys_set_mem _ _ _ hmem1, rfl, rfl⟩
      refine hf2.trans ?_
      refine TabFrame.trans ?_ (TabFrame_updateTab _ t _)
      exact ⟨rfl, rfl, rfl⟩

theorem TabFrame_onPtyData (st : ManagerState) (t s : Nat) (d : String) :
    TabFrame st (onPtyData st t s d).1 :=
  TabFrame_markBusy st t s

theorem TabFrame_fireIdle (st : ManagerState) (t s : Nat) :
    TabFrame st (fireIdle st t s).1 := by
  unfold fireIdle
  cases hg : st.tabs.get t with
  | none => exact TabFrame.refl st
  | some ts =>
      have hmem : t ∈ st.tabs.keys := by
        rw [← JSMap.isSome_get_iff_mem_keys]
        simp [hg]
      exact ⟨JSMap.keys_set_mem _ _ _ hmem, rfl, rfl⟩

theorem TabFrame_fireBootstrap (st : ManagerState) (t s pid : Nat)
    (sess : Option String) : TabFrame st (fireBootstrap st t s pid sess).1 := by
  unfold fireBootstrap
  cases hg : st.tabs.get t with
  | none => exact TabFrame.refl st
  | some ts =>
      have hmem : t ∈ st.tabs.keys := by
        rw [← JSMap.isSome_get_iff_mem_keys]
        simp [hg]
      exact ⟨JSMap.keys_set_mem _ _ _ hmem, rfl, rfl⟩

theorem TabFrame_fireTimer (st : ManagerState) (tid : Nat) (ok : Bool) :
    TabFrame st (fireTimer st tid ok).1 := by
  unfold fireTimer
  cases hg : st.pending.get tid with
  | none => exact TabFrame.refl st
  | some kind =>
      cases kind with
      | bootstrap t s pid sess =>
          refine TabFrame.trans ?_ (TabFrame_fireBootstrap _ t s pid sess)
          exact ⟨rfl, rfl, rfl⟩
      | idle t s =>
          refine TabFrame.trans ?_ (TabFrame_fireIdle _ t s)
          exact ⟨rfl, rfl, rfl⟩
      | restart t s path =>
          refine TabFrame.trans ?_ (TabFrame_startTerminal _ t s path none false ok)
          exact ⟨rfl, rfl, rfl⟩

theorem TabFrame_cleanupFold (t : Nat) (l : List Nat) :
    ∀ (st : ManagerState) (evs : List OutEvent),
      TabFrame st (l.foldl
        (fun acc terminalId =>
          let r := cleanupTerminal acc.1 t terminalId
          (r.1, acc.2 ++ r.2)) (st, evs)).1 := by
  induction l with
  | nil => intro st evs; exact TabFrame.refl st
  | cons s l ih =>
      intro st evs
      exact (TabFrame_cleanupTerminal st t s).trans (ih _ _)

theorem TabFrame_cleanupAll (st : ManagerState) (t : Nat) :
    TabFrame st (cleanupAllTerminalsInTab st t).1 := by
  unfold cleanupAllTerminalsInTab
  cases hg : st.tabs.get t with
  | none => exact TabFrame.refl st
  | some ts => exact TabFrame_cleanupFold t _ st []

/-! Tab-map ordering invariants: keys ascend in insertion order and stay
below the allocator; the active tab always exists. -/

/-- Tab ids are strictly ascending in insertion order and below nextTabId. -/
def TabsOrdered (st : ManagerState) : Prop :=
  List.Pairwise (· < ·) st.tabs.keys ∧ ∀ k ∈ st.tabs.keys, k < st.nextTabId

instance (st : ManagerState) : Decidable (TabsOrdered st) :=
  inferInstanceAs (Decidable (List.Pairwise (· < ·) st.tabs.keys ∧
    ∀ k ∈ st.tabs.keys, k < st.nextTabId))

/-- The active tab id is always a key of the tab map. -/
def ActiveInv (st : ManagerState) : Prop :=
  st.activeTabId ∈ st.tabs.keys

instance (st : ManagerState) : Decidable (ActiveInv st) :=
  inferInstanceAs (Decidable (st.activeTabId ∈ st.tabs.keys))

theorem TabsOrdered_of_parts {st st' : ManagerState} (h : TabsOrdered st)
    (hk : st'.tabs.keys = st.tabs.keys) (hn : st'.nextTabId = st.nextTabId) :
    TabsOrdered st' := by
  constructor
  · rw [hk]; exact h.1
  · rw [hk, hn]; exact h.2

theorem ActiveInv_of_parts {st st' : ManagerState} (h : ActiveInv st)
    (hk : st'.tabs.keys = st.tabs.keys) (ha : st'.activeTabId = st.activeTabId) :
    ActiveInv st' := by
  unfold ActiveInv
  rw [hk, ha]
  exact h

theorem mem_keys_set_self {β : Type} (m : JSMap β) (k : Nat) (v : β) :
    k ∈ JSMap.keys (JSMap.set m k v) := by
  rw [← JSMap.isSome_get_iff_mem_keys]
  simp [JSMap.get_set_self]

theorem keys_del_eq_filter {β : Type} (m : JSMap β) (k : Nat) :
    JSMap.keys (JSMap.del m k) = (JSMap.keys m).filter (fun x => x != k) := by
  induction m with
  | nil => rfl
  | cons p m ih =>
      by_cases hp : p.1 = k
      · rw [JSMap.del_cons_eq p m k hp, ih, JSMap.keys_cons]
        simp [hp]
      · rw [JSMap.del_cons_ne p m k hp, JSMap.keys_cons, JSMap.keys_cons, ih]
        simp [hp]

theorem TabsOrdered_createTab {st : ManagerState} (h : TabsOrdered st) :
    TabsOrdered (createTab st).1 ∧ ActiveInv (createTab st).1 := by
  unfold createTab
  simp only
  have hnot : st.nextTabId ∉ st.tabs.keys := fun hmem =>
    lt_irrefl _ (h.2 _ hmem)
  have hkeys : JSMap.keys (st.tabs.set st.nextTabId emptyTabState) =
      st.tabs.keys ++ [st.nextTabId] :=
    JSMap.keys_set_not_mem _ _ _ hnot
  refine ⟨⟨?_, ?_⟩, ?_⟩
  · rw [hkeys, List.pairwise_append]
    refine ⟨h.1, List.pairwise_singleton _ _, ?_⟩
    intro a ha b hb
    rw [List.mem_singleton] at hb
    subst hb
    exact h.2 _ ha
  · intro k hk
    rw [hkeys] at hk
    rcases List.mem_append.mp hk with hk | hk
    · exact Nat.lt_succ_of_lt (h.2 _ hk)
    · rw [List.mem_singleton] at hk
      subst hk
      exact Nat.lt_succ_self _
  · exact mem_keys_set_self _ _ _

theorem TabsOrdered_switchTab {st : ManagerState} (t : Nat)
    (h : TabsOrdered st) (ha : ActiveInv st) :
    TabsOrdered (switchTab st t).1 ∧ ActiveInv (switchTab st t).1 := by
  unfold switchTab
  by_cases hk : st.tabs.haskey t
  · simp only [hk, if_true]
    refine ⟨TabsOrdered_of_parts h rfl rfl, ?_⟩
    unfold ActiveInv
    simp only
    exact (JSMap.haskey_iff_mem_keys _ _).mp hk
  · simp only [hk, if_false, Bool.false_eq_true]
    exact ⟨h, ha⟩

theorem TabsOrdered_closeTab {st : ManagerState} (t : Nat) (confirm : Bool)
    (h : TabsOrdered st) (ha : ActiveInv st) :
    TabsOrdered (closeTab st t confirm).1 ∧ ActiveInv (closeTab st t confirm).1 := by
  unfold closeTab
  cases hg : st.tabs.get t with
  | none => exact ⟨h, ha⟩
  | some ts =>
      simp only
      by_cases hc : 0 < ts.ptyProcesses.size ∧ confirm = false
      · simp only [hc, if_true]
        exact ⟨h, ha⟩
      · simp only [hc, if_false]
        have hfA := TabFrame_cleanupAll st t
        have hkeys2 : ((cleanupAllTerminalsInTab st t).1.tabs.del t).keys =
            st.tabs.keys.filter (fun x => x != t) := by
          rw [keys_del_eq_filter, hfA.1]
        have hord2 : List.Pairwise (· < ·)
            ((cleanupAllTerminalsInTab st t).1.tabs.del t).keys := by
          rw [hkeys2]
          exact h.1.sublist (List.filter_sublist _)
        have hbound2 : ∀ k ∈ ((cleanupAllTerminalsInTab st t).1.tabs.del t).keys,
            k < st.nextTabId := by
          intro k hk
          rw [hkeys2] at hk
          exact h.2 _ (List.mem_of_mem_filter hk)
        split
        · split
          · next hd tl hk =>
              constructor
              · constructor
                · rw [hk] at hord2 ⊢
                  exact hord2
                · intro k hkk
                  have hkk2 : k ∈ ((cleanupAllTerminalsInTab st t).1.tabs.del t).keys := hkk
                  exact lt_of_lt_of_le (hbound2 k hkk2) (le_of_eq hfA.2.2.symm)
              · unfold ActiveInv
                simp only [hk]
                exact List.mem_cons_self _ _
          · next hk =>
              have hnil : ((cleanupAllTerminalsInTab st t).1.tabs.del t) = [] := by
                have hlen := congrArg List.length hk
                simp [JSMap.keys] at hlen
                exact hlen
              constructor
              · constructor
                · rw [hnil]
                  simp [JSMap.set, JSMap.keys]
                · intro k hkk
                  have hkk2 : k ∈ JSMap.keys
                      (((cleanupAllTerminalsInTab st t).1.tabs.del t).set 1 emptyTabState) := hkk
                  rw [hnil] at hkk2
                  simp [JSMap.set, JSMap.keys] at hkk2
                  subst hkk2
                  exact Nat.one_lt_two
              · unfold ActiveInv
                simp [hnil, JSMap.set, JSMap.keys]
        · next hne =>
            constructor
            · exact ⟨hord2, by
                intro k hkk
                have hkk2 : k ∈ ((cleanupAllTerminalsInTab st t).1.tabs.del t).keys := hkk
                exact lt_of_lt_of_le (hbound2 k hkk2) (le_of_eq hfA.2.2.symm)⟩
            · unfold ActiveInv
              show (cleanupAllTerminalsInTab st t).1.activeTabId ∈
                ((cleanupAllTerminalsInTab st t).1.tabs.del t).keys
              rw [hkeys2, hfA.2.1]
              rw [List.mem_filter]
              refine ⟨ha, ?_⟩
              simp only [hfA.2.1] at hne
              simpa using fun hx => hne (by simp [hx])

theorem ord_active_of_frame {st st' : ManagerState} (h : TabsOrdered st)
    (ha : ActiveInv st) (hf : TabFrame st st') :
    TabsOrdered st' ∧ ActiveInv st' :=
  ⟨TabsOrdered_of_parts h hf.1 hf.2.2, ActiveInv_of_parts ha hf.1 hf.2.1⟩

theorem ord_active_handleMessage {st : ManagerState} (m : InMsg)
    (h : TabsOrdered st) (ha : ActiveInv st) :
    TabsOrdered (handleMessage st m).1 ∧ ActiveInv (handleMessage st m).1 := by
  cases m with
  | selectProject tabId s path resume ok =>
      unfold handleMessage
      by_cases hv : isValidTerminalId s
      · simp only [hv, if_true]
        exact ord_active_of_frame h ha (TabFrame_startTerminal _ _ s path resume false ok)
      · simp only [hv, if_false, Bool.false_eq_true]
        exact ⟨h, ha⟩
  | input tabId s d =>
      unfold handleMessage
      by_cases hv : isValidTerminalId s
      · simp only [hv, if_true]
        rw [handleInput_state]
        exact ⟨h, ha⟩
      · simp only [hv, if_false, Bool.false_eq_true]
        exact ⟨h, ha⟩
  | resize tabId s c r =>
      unfold handleMessage
      by_cases hv : isValidTerminalId s
      · simp only [hv, if_true]
        rw [handleResize_state]
        exact ⟨h, ha⟩
      · simp only [hv, if_false, Bool.false_eq_true]
        exact ⟨h, ha⟩
  | kill tabId s =>
      unfold handleMessage
      by_cases hv : isValidTerminalId s
      · simp only [hv, if_true]
        exact ord_active_of_frame h ha (TabFrame_killTerminal _ _ s)
      · simp only [hv, if_false, Bool.false_eq_true]
        exact ⟨h, ha⟩
  | restart tabId s =>
      unfold handleMessage
      by_cases hv : isValidTerminalId s
      · simp only [hv, if_true]
        exact ord_active_of_frame h ha (TabFrame_restartTerminal _ _ s)
      · simp only [hv, if_false, Bool.false_eq_true]
        exact ⟨h, ha⟩
  | pickFiles tabId s paths =>
      unfold handleMessage
      by_cases hv : isValidTerminalId s
      · simp only [hv, if_true]
        rw [pickFiles_state]
        exact ⟨h, ha⟩
      · simp only [hv, if_false, Bool.false_eq_true]
        exact ⟨h, ha⟩
  | createTab =>
      exact ⟨(TabsOrdered_createTab h).1, (TabsOrdered_createTab h).2⟩
  | switchTab tabId => exact TabsOrdered_switchTab tabId h ha
  | closeTab tabId confirm => exact TabsOrdered_closeTab tabId confirm h ha

theorem ord_active_step {st : ManagerState} (e : Event)
    (h : TabsOrdered st) (ha : ActiveInv st) :
    TabsOrdered (step st e).1 ∧ ActiveInv (step st e).1 := by
  cases e with
  | msg m => exact ord_active_handleMessage m h ha
  | ptyData t s d => exact ord_active_of_frame h ha (TabFrame_onPtyData st t s d)
  | ptyExit t s => exact ord_active_of_frame h ha (TabFrame_onPtyExit st t s)
  | timerFire tid ok => exact ord_active_of_frame h ha (TabFrame_fireTimer st tid ok)

/-- C9 counterexample: closing every tab resets the allocator, so a later
createTab hands out an id that was already allocated earlier in the run —
the trace contains tabCreated 2 twice, violating strict monotonicity. -/
theorem c9_counterexample :
    (run initState [Event.msg InMsg.createTab, Event.msg (InMsg.closeTab 2 true),
        Event.msg (InMsg.closeTab 1 true), Event.msg InMsg.createTab]).2.count
      (OutEvent.tabCreated 2) = 2 := by decide

/-- C9 amended: the first tab has id 1; createTab returns the allocator value,
which is strictly greater than every tab id currently in the map, and bumps
the allocator; the ascending-ids invariant is preserved by every event.  The
sole exception to global strict monotonicity is the allocator reset performed
when closeTab empties the tab map (it recreates id 1 and sets the allocator
back to 2), after which earlier ids are reused. -/
theorem c9_tab_ids_monotone (st : ManagerState) (e : Event)
    (h : TabsOrdered st) (ha : ActiveInv st) :
    initState.tabs.keys = [1] ∧
    (createTab st).2 = [OutEvent.tabCreated (createTab st).1.activeTabId] ∧
    (∀ k ∈ st.tabs.keys, k < (createTab st).1.activeTabId) ∧
    (createTab st).1.nextTabId = (createTab st).1.activeTabId + 1 ∧
    TabsOrdered (step st e).1 ∧ ActiveInv (step st e).1 := by
  refine ⟨by decide, rfl, ?_, rfl, ord_active_step e h ha⟩
  intro k hk
  exact h.2 k hk

theorem c9_tab_ids_monotone_witness :
    initState.tabs.keys = [1] ∧
    (createTab initState).2 = [OutEvent.tabCreated (createTab initState).1.activeTabId] ∧
    (∀ k ∈ initState.tabs.keys, k < (createTab initState).1.activeTabId) ∧
    (createTab initState).1.nextTabId = (createTab initState).1.activeTabId + 1 ∧
    TabsOrdered (step initState (Event.msg InMsg.createTab)).1 ∧
    ActiveInv (step initState (Event.msg InMsg.createTab)).1 :=
  c9_tab_ids_monotone initState (Event.msg InMsg.createTab) (by decide) (by decide)

/-- C2: a confirmed closeTab on an existing tab removes the tab, leaves the
tab map non-empty, reassigns the active tab to the lowest remaining id when
the closed tab was active — or recreates a fresh default tab with id 1 and a
reset allocator when no tab remains — and emits tabClosed with the new
active id. -/
theorem c2_closeTab_confirmed (st : ManagerState) (t : Nat) (ts : TabState)
    (h : TabsOrdered st) (ha : ActiveInv st) (hg : st.tabs.get t = some ts) :
    ((st.tabs.del t).keys ≠ [] → (closeTab st t true).1.tabs.get t = none) ∧
    (closeTab st t true).1.tabs.keys ≠ [] ∧
    ((st.tabs.del t).keys = [] →
      (closeTab st t true).1.tabs = [(1, emptyTabState)] ∧
      (closeTab st t true).1.activeTabId = 1 ∧
      (closeTab st t true).1.nextTabId = 2) ∧
    (st.activeTabId = t → (st.tabs.del t).keys ≠ [] →
      (closeTab st t true).1.activeTabId ∈ (st.tabs.del t).keys ∧
      ∀ k ∈ (st.tabs.del t).keys, (closeTab st t true).1.activeTabId ≤ k) ∧
    OutEvent.tabClosed t (closeTab st t true).1.activeTabId ∈ (closeTab st t true).2 := by
  have hfA := TabFrame_cleanupAll st t
  have hkeq : ((cleanupAllTerminalsInTab st t).1.tabs.del t).keys =
      (st.tabs.del t).keys := by
    rw [keys_del_eq_filter, keys_del_eq_filter, hfA.1]
  have hcond : ¬(0 < ts.ptyProcesses.size ∧ true = false) := by simp
  have hord2 : List.Pairwise (· < ·)
      ((cleanupAllTerminalsInTab st t).1.tabs.del t).keys := by
    rw [hkeq, keys_del_eq_filter]
    exact h.1.sublist (List.filter_sublist _)
  unfold closeTab
  simp only [hg]
  rw [if_neg hcond]
  split
  · next hb =>
      have hat : st.activeTabId = t := by
        have : (cleanupAllTerminalsInTab st t).1.activeTabId = t := by
          simpa using hb
        rw [hfA.2.1] at this
        exact this
      split
      · next hd tl hk =>
          refine ⟨?_, ?_, ?_, ?_, ?_⟩
          · intro _
            exact JSMap.get_del_self _ _
          · simp only [hk]
            simp
          · intro hnil
            rw [hkeq] at hk
            rw [hnil] at hk
            cases hk
          · intro _ _
            constructor
            · rw [← hkeq, hk]
              exact List.mem_cons_self _ _
            · intro k hkk
              rw [← hkeq, hk] at hkk
              rw [hk] at hord2
              rcases List.mem_cons.mp hkk with rfl | hkk
              · exact le_refl _
              · exact le_of_lt ((List.pairwise_cons.mp hord2).1 k hkk)
          · simp
      · next hk =>
          have hnil2 : ((cleanupAllTerminalsInTab st t).1.tabs.del t) = [] := by
            have hlen := congrArg List.length hk
            simp [JSMap.keys] at hlen
            exact hlen
          refine ⟨?_, ?_, ?_, ?_, ?_⟩
          · intro hne
            rw [← hkeq, hk] at hne
            exact absurd rfl hne
          · simp only [hnil2]
            simp [JSMap.set, JSMap.keys]
          · intro _
            refine ⟨?_, rfl, rfl⟩
            simp only [hnil2]
            rfl
          · intro _ hne
            rw [← hkeq, hk] at hne
            exact absurd rfl hne
          · simp
  · next hb =>
      have hat : st.activeTabId ≠ t := by
        intro hx
        apply hb
        have : (cleanupAllTerminalsInTab st t).1.activeTabId = t := by
          rw [hfA.2.1]
          exact hx
        simp [this]
      have hmem : (cleanupAllTerminalsInTab st t).1.activeTabId ∈
          ((cleanupAllTerminalsInTab st t).1.tabs.del t).keys := by
        rw [hkeq, keys_del_eq_filter, List.mem_filter]
        rw [hfA.2.1]
        refine ⟨ha, ?_⟩
        simpa using hat
      refine ⟨?_, ?_, ?_, ?_, ?_⟩
      · intro _
        exact JSMap.get_del_self _ _
      · exact List.ne_nil_of_mem hmem
      · intro hnil
        rw [hkeq, hnil] at hmem
        cases hmem
      · intro hx _
        exact absurd hx hat
      · simp

theorem c2_closeTab_confirmed_witness :
    (((step initState (Event.msg InMsg.createTab)).1.tabs.del 2).keys ≠ [] →
      (closeTab (step initState (Event.msg InMsg.createTab)).1 2 true).1.tabs.get 2 = none) ∧
    (closeTab (step initState (Event.msg InMsg.createTab)).1 2 true).1.tabs.keys ≠ [] ∧
    (((step initState (Event.msg InMsg.createTab)).1.tabs.del 2).keys = [] →
      (closeTab (step initState (Event.msg InMsg.createTab)).1 2 true).1.tabs =
        [(1, emptyTabState)] ∧
      (closeTab (step initState (Event.msg InMsg.createTab)).1 2 true).1.activeTabId = 1 ∧
      (closeTab (step initState (Event.msg InMsg.createTab)).1 2 true).1.nextTabId = 2) ∧
    ((step initState (Event.msg InMsg.createTab)).1.activeTabId = 2 →
      ((step initState (Event.msg InMsg.createTab)).1.tabs.del 2).keys ≠ [] →
      (closeTab (step initState (Event.msg InMsg.createTab)).1 2 true).1.activeTabId ∈
        ((step initState (Event.msg InMsg.createTab)).1.tabs.del 2).keys ∧
      ∀ k ∈ ((step initState (Event.msg InMsg.createTab)).1.tabs.del 2).keys,
        (closeTab (step initState (Event.msg InMsg.createTab)).1 2 true).1.activeTabId ≤ k) ∧
    OutEvent.tabClosed 2
        (closeTab (step initState (Event.msg InMsg.createTab)).1 2 true).1.activeTabId ∈
      (closeTab (step initState (Event.msg InMsg.createTab)).1 2 true).2 :=
  c2_closeTab_confirmed (step initState (Event.msg InMsg.createTab)).1 2 emptyTabState
    (by decide) (by decide) (by decide)

/-- C8 counterexample: a selectProject carrying a nonexistent tab id (5) is
dropped — the state is unchanged and nothing is emitted — whereas the claim
would have it start the session on the active tab (as the absent-tab-id
message demonstrably does). -/
theorem c8_counterexample :
    step initState (Event.msg (InMsg.selectProject (some 5) 0 "/p" none true)) =
      (initState, []) ∧
    step initState (Event.msg (InMsg.selectProject none 0 "/p" none true)) ≠
      (initState, []) := by
  constructor
  · decide
  · decide

/-- C8 amended: for every session message with an optional tab id
(selectProject, input, resize, kill, restart, pickFiles), the fallback to the
active tab happens only when the field is absent or 0 (JavaScript falsy, via
message.tabId || activeTabId); a present nonzero tab id that is not in the
tab map makes the operation a dropped no-op instead. -/
theorem c8_fallback_only_when_falsy (st : ManagerState) (s : Nat) (path : String)
    (resume : Option String) (ok : Bool) (d : String) (c r : Int)
    (paths : List String) :
    (∀ tabId, (tabId = none ∨ tabId = some 0) →
      handleMessage st (InMsg.selectProject tabId s path resume ok) =
        (if isValidTerminalId s then
          startTerminal st st.activeTabId s path resume false ok else (st, [])) ∧
      handleMessage st (InMsg.input tabId s d) =
        (if isValidTerminalId s then handleInput st st.activeTabId s d
          else (st, [])) ∧
      handleMessage st (InMsg.resize tabId s c r) =
        (if isValidTerminalId s then handleResize st st.activeTabId s c r
          else (st, [])) ∧
      handleMessage st (InMsg.kill tabId s) =
        (if isValidTerminalId s then killTerminal st st.activeTabId s
          else (st, [])) ∧
      handleMessage st (InMsg.restart tabId s) =
        (if isValidTerminalId s then restartTerminal st st.activeTabId s
          else (st, [])) ∧
      handleMessage st (InMsg.pickFiles tabId s paths) =
        (if isValidTerminalId s then pickFilesForTerminal st st.activeTabId s paths
          else (st, []))) ∧
    (∀ t, t ≠ 0 → st.tabs.get t = none →
      handleMessage st (InMsg.selectProject (some t) s path resume ok) = (st, []) ∧
      handleMessage st (InMsg.input (some t) s d) = (st, []) ∧
      handleMessage st (InMsg.resize (some t) s c r) = (st, []) ∧
      handleMessage st (InMsg.kill (some t) s) = (st, []) ∧
      handleMessage st (InMsg.restart (some t) s) = (st, []) ∧
      handleMessage st (InMsg.pickFiles (some t) s paths) = (st, [])) := by
  constructor
  · intro tabId htab
    rcases htab with rfl | rfl <;> exact ⟨rfl, rfl, rfl, rfl, rfl, rfl⟩
  · intro t ht hget
    have hres : resolveTabId (some t) st.activeTabId = t := by
      unfold resolveTabId
      simp [ht]
    have hb1 : ((st.tabs.get t).bind fun ts => ts.ptyProcesses.get s) = none := by
      rw [hget]
      rfl
    have hb2 : ((st.tabs.get t).bind fun ts => ts.terminalProjects.get s) = none := by
      rw [hget]
      rfl
    refine ⟨?_, ?_, ?_, ?_, ?_, ?_⟩
    · unfold handleMessage
      by_cases hv : isValidTerminalId s
      · simp only [hv, if_true, hres]
        unfold startTerminal
        rw [hget]
      · simp [hv]
    · unfold handleMessage
      by_cases hv : isValidTerminalId s
      · simp only [hv, if_true, hres]
        unfold handleInput
        rw [hb1]
      · simp [hv]
    · unfold handleMessage
      by_cases hv : isValidTerminalId s
      · simp only [hv, if_true, hres]
        unfold handleResize
        rw [hb1]
      · simp [hv]
    · unfold handleMessage
      by_cases hv : isValidTerminalId s
      · simp only [hv, if_true, hres]
        unfold killTerminal
        rw [hb1]
      · simp [hv]
    · unfold handleMessage
      by_cases hv : isValidTerminalId s
      · simp only [hv, if_true, hres]
        unfold restartTerminal
        rw [hb2]
      · simp [hv]
    · unfold handleMessage
      by_cases hv : isValidTerminalId s
      · simp only [hv, if_true, hres]
        unfold pickFilesForTerminal
        by_cases hl : paths.length > 0
        · simp only [hl, if_true]
          rw [hb1]
        · simp [hl]
      · simp [hv]

theorem c8_fallback_only_when_falsy_witness :
    (handleMessage initState (InMsg.input none 0 "x") =
      (if isValidTerminalId 0 then handleInput initState initState.activeTabId 0 "x"
        else (initState, []))) ∧
    handleMessage initState (InMsg.selectProject (some 5) 0 "/p" none true) =
      (initState, []) ∧
    handleMessage initState (InMsg.kill (some 5) 0) = (initState, []) := by
  have h := c8_fallback_only_when_falsy initState 0 "/p" none true "x" 80 24 ["/f"]
  have h2 := h.2 5 (by decide) (by decide)
  exact ⟨(h.1 none (Or.inl rfl)).2.1, h2.1, h2.2.2.2.1⟩

/-! The stale-timer hazard (C1): machinery describing dead pids and dead
timer ids, preserved by every event. -/

theorem JSMap.get_del_cases {β : Type} (m : JSMap β) (k tid : Nat) :
    (JSMap.del m k).get tid = m.get tid ∨ (JSMap.del m k).get tid = none := by
  by_cases h : tid = k
  · subst h
    exact Or.inr (JSMap.get_del_self m tid)
  · exact Or.inl (JSMap.get_del_ne m k tid h)

theorem JSMap.get_set_cases {β : Type} (m : JSMap β) (k tid : Nat) (v : β) :
    (JSMap.set m k v).get tid = m.get tid ∨ (JSMap.set m k v).get tid = some v := by
  by_cases h : tid = k
  · subst h
    exact Or.inr (JSMap.get_set_self m tid v)
  · exact Or.inl (JSMap.get_set_ne m k tid v h)

theorem get_delOpt_cases {β : Type} (m : JSMap β) (o : Option Nat) (tid : Nat) :
    (delOpt m o).get tid = m.get tid ∨ (delOpt m o).get tid = none := by
  cases o with
  | none => exact Or.inl rfl
  | some k => exact JSMap.get_del_cases m k tid

/-- The pid a pending bootstrap timer would write to, if any. -/
def bootPid : TimerKind → Option Nat
  | TimerKind.bootstrap _ _ pid _ => some pid
  | _ => none

/-- p is dead: no slot holds it, no pending bootstrap timer captured it, and
the allocator is beyond it, so it can never be spawned again. -/
def PidDead (st : ManagerState) (p : Nat) : Prop :=
  (∀ tq sq : Nat,
    ((st.tabs.get tq).bind fun ts => ts.ptyProcesses.get sq) ≠ some p) ∧
  (∀ tid k, st.pending.get tid = some k → bootPid k ≠ some p) ∧
  p < st.nextPid

/-- tid is dead: not pending and below the allocator, so it can never fire
nor be scheduled again. -/
def TidDead (st : ManagerState) (tid : Nat) : Prop :=
  st.pending.get tid = none ∧ tid < st.nextTimerId

/-- Every slot pid is below the pid allocator, also in pending bootstrap
timers (decidable hypothesis form). -/
def timerPidBelow (n : Nat) : TimerKind → Prop
  | TimerKind.bootstrap _ _ pid _ => pid < n
  | _ => True

instance (n : Nat) : DecidablePred (timerPidBelow n) := fun k =>
  match k with
  | TimerKind.bootstrap _ _ pid _ => Nat.decLt pid n
  | TimerKind.idle _ _ => isTrue trivial
  | TimerKind.restart _ _ _ => isTrue trivial

def PidsBelow (st : ManagerState) : Prop :=
  (∀ tab ∈ st.tabs, ∀ q ∈ tab.2.ptyProcesses, q.2 < st.nextPid) ∧
  ∀ q ∈ st.pending, timerPidBelow st.nextPid q.2

instance (st : ManagerState) : Decidable (PidsBelow st) :=
  inferInstanceAs (Decidable ((∀ tab ∈ st.tabs, ∀ q ∈ tab.2.ptyProcesses,
    q.2 < st.nextPid) ∧ ∀ q ∈ st.pending, timerPidBelow st.nextPid q.2))

/-- Every stored timer id is below the timer allocator. -/
def TidsBelow (st : ManagerState) : Prop :=
  (∀ tab ∈ st.tabs, (∀ q ∈ tab.2.idleTimers, q.2 < st.nextTimerId) ∧
    ∀ q ∈ tab.2.claudeCommandTimeouts, q.2 < st.nextTimerId) ∧
  ∀ q ∈ st.pending, q.1 < st.nextTimerId

instance (st : ManagerState) : Decidable (TidsBelow st) :=
  inferInstanceAs (Decidable ((∀ tab ∈ st.tabs,
    (∀ q ∈ tab.2.idleTimers, q.2 < st.nextTimerId) ∧
      ∀ q ∈ tab.2.claudeCommandTimeouts, q.2 < st.nextTimerId) ∧
    ∀ q ∈ st.pending, q.1 < st.nextTimerId))

theorem JSMap.set_set {β : Type} (m : JSMap β) (k : Nat) (v w : β) :
    JSMap.set (JSMap.set m k v) k w = JSMap.set m k w := by
  induction m with
  | nil => simp [JSMap.set]
  | cons p m ih =>
      by_cases hp : p.1 = k
      · simp [JSMap.set, hp]
      · simp [JSMap.set, hp, ih]

theorem get_delOpt_eq_some {β : Type} {m : JSMap β} {o : Option Nat} {tid : Nat}
    {k : β} (h : (delOpt m o).get tid = some k) : m.get tid = some k := by
  rcases get_delOpt_cases m o tid with hc | hc <;> rw [hc] at h
  · exact h
  · cases h

theorem get_del_eq_some {β : Type} {m : JSMap β} {kd tid : Nat} {k : β}
    (h : (JSMap.del m kd).get tid = some k) : m.get tid = some k ∧ tid ≠ kd := by
  by_cases hx : tid = kd
  · subst hx
    rw [JSMap.get_del_self] at h
    cases h
  · rw [JSMap.get_del_ne m kd tid hx] at h
    exact ⟨h, hx⟩

theorem get_set_eq_some {β : Type} {m : JSMap β} {ks tid : Nat} {v k : β}
    (h : (JSMap.set m ks v).get tid = some k) :
    m.get tid = some k ∨ (k = v ∧ tid = ks) := by
  by_cases hx : tid = ks
  · subst hx
    rw [JSMap.get_set_self] at h
    exact Or.inr ⟨(Option.some_injective _ h).symm, rfl⟩
  · rw [JSMap.get_set_ne m ks tid v hx] at h
    exact Or.inl h

theorem get_del_of_none {β : Type} {m : JSMap β} {tid : Nat} (kd : Nat)
    (h : m.get tid = none) : (JSMap.del m kd).get tid = none := by
  rcases JSMap.get_del_cases m kd tid with hc | hc
  · rw [hc]; exact h
  · rw [hc]

theorem get_delOpt_of_none {β : Type} {m : JSMap β} {tid : Nat} (o : Option Nat)
    (h : m.get tid = none) : (delOpt m o).get tid = none := by
  rcases get_delOpt_cases m o tid with hc | hc
  · rw [hc]; exact h
  · rw [hc]

theorem get_set_of_none_ne {β : Type} {m : JSMap β} {tid ks : Nat} (v : β)
    (hne : tid ≠ ks) (h : m.get tid = none) :
    (JSMap.set m ks v).get tid = none := by
  rw [JSMap.get_set_ne m ks tid v hne]
  exact h

/-- Transport the dead-pid tab clause through a single-tab replacement whose
slots hold only old pids, nothing, or one designated new pid. -/
theorem PidDead_tab_update {st : ManagerState} {p t : Nat} {ts ts' : TabState}
    {q0 : Nat}
    (h1 : ∀ tq sq : Nat,
      ((st.tabs.get tq).bind fun x => x.ptyProcesses.get sq) ≠ some p)
    (hg : st.tabs.get t = some ts)
    (hpty : ∀ sq, ts'.ptyProcesses.get sq = ts.ptyProcesses.get sq ∨
      ts'.ptyProcesses.get sq = none ∨ ts'.ptyProcesses.get sq = some q0)
    (hq0 : q0 ≠ p) :
    ∀ tq sq : Nat,
      (((st.tabs.set t ts').get tq).bind fun x => x.ptyProcesses.get sq) ≠ some p := by
  intro tq sq
  by_cases htq : tq = t
  · subst htq
    rw [JSMap.get_set_self]
    simp only [Option.some_bind]
    rcases hpty sq with hh | hh | hh <;> rw [hh]
    · have := h1 tq sq
      rw [hg] at this
      simpa using this
    · simp
    · simp [hq0]
  · rw [JSMap.get_set_ne _ _ _ _ htq]
    exact h1 tq sq

theorem PidDead_updateTab {st : ManagerState} {p t : Nat} {q0 : Nat}
    {f : TabState → TabState} (h : PidDead st p)
    (hf : ∀ ts, ∀ sq, (f ts).ptyProcesses.get sq = ts.ptyProcesses.get sq ∨
      (f ts).ptyProcesses.get sq = none ∨ (f ts).ptyProcesses.get sq = some q0)
    (hq0 : q0 ≠ p) : PidDead (updateTab st t f) p := by
  unfold updateTab
  cases hg : st.tabs.get t with
  | none => exact h
  | some ts =>
      exact ⟨PidDead_tab_update h.1 hg (hf ts) hq0, h.2.1, h.2.2⟩

theorem PidDead_cleanupTerminal {st : ManagerState} {p : Nat} (t s : Nat)
    (h : PidDead st p) : PidDead (cleanupTerminal st t s).1 p := by
  cases hg : st.tabs.get t with
  | none => rw [cleanupTerminal_of_none s hg]; exact h
  | some ts =>
      rw [cleanupTerminal_of_some s hg]
      refine ⟨?_, ?_, h.2.2⟩
      · refine PidDead_tab_update h.1 hg ?_ (Nat.ne_of_gt h.2.2)
        intro sq
        rw [cleanupTS_fst]
        rcases JSMap.get_del_cases ts.ptyProcesses s sq with hc | hc
        · exact Or.inl hc
        · exact Or.inr (Or.inl hc)
      · intro tid k hk
        rw [cleanupTS_pend] at hk
        exact h.2.1 tid k (get_delOpt_eq_some (get_delOpt_eq_some hk))

theorem PidDead_startTerminal {st : ManagerState} {p : Nat} (t s : Nat)
    (path : String) (sess : Option String) (skip ok : Bool)
    (h : PidDead st p) : PidDead (startTerminal st t s path sess skip ok).1 p := by
  unfold startTerminal
  cases hg : st.tabs.get t with
  | none => exact h
  | some ts0 =>
      simp only
      have h1 := PidDead_cleanupTerminal t s h
      by_cases hok : ok
      · simp only [hok, if_true]
        have h2 : PidDead { (cleanupTerminal st t s).1 with
            nextPid := (cleanupTerminal st t s).1.nextPid + 1 } p :=
          ⟨h1.1, h1.2.1, Nat.lt_succ_of_lt h1.2.2⟩
        have hq0 : (cleanupTerminal st t s).1.nextPid ≠ p := Nat.ne_of_gt h1.2.2
        have h3 : PidDead (updateTab
            { (cleanupTerminal st t s).1 with
              nextPid := (cleanupTerminal st t s).1.nextPid + 1 } t
            fun ts => { ts with
              ptyProcesses := ts.ptyProcesses.set s (cleanupTerminal st t s).1.nextPid,
              terminalProjects := ts.terminalProjects.set s path }) p := by
          refine PidDead_updateTab h2 ?_ hq0
          intro ts sq
          rcases JSMap.get_set_cases ts.ptyProcesses s sq
            (cleanupTerminal st t s).1.nextPid with hc | hc
          · exact Or.inl hc
          · exact Or.inr (Or.inr hc)
        by_cases hskip : skip
        · simpa [hskip] using h3
        · simp only [hskip, if_false, Bool.false_eq_true]
          refine PidDead_updateTab ?_ ?_ hq0
          · refine ⟨h3.1, ?_, h3.2.2⟩
            intro tid k hk
            rcases get_set_eq_some hk with hh | ⟨rfl, htid⟩
            · exact h3.2.1 tid k hh
            · intro hb
              rw [show bootPid (TimerKind.bootstrap t s
                  (cleanupTerminal st t s).1.nextPid sess) =
                some (cleanupTerminal st t s).1.nextPid from rfl] at hb
              exact hq0 (Option.some_injective _ hb)
          · intro ts sq
            exact Or.inl rfl
      · simp only [hok, if_false, Bool.false_eq_true]
        exact h1

theorem startTerminal_no_write (st : ManagerState) (t s : Nat) (path : String)
    (sess : Option String) (skip ok : Bool) (pq : Nat) (d : String) :
    OutEvent.ptyWrite pq d ∉ (startTerminal st t s path sess skip ok).2 := by
  unfold startTerminal
  cases hg : st.tabs.get t with
  | none => simp
  | some ts0 =>
      simp only
      have hcl : OutEvent.ptyWrite pq d ∉ (cleanupTerminal st t s).2 := by
        intro hmem
        rcases cleanupTerminal_events st t s hmem with ⟨pid2, hpid⟩
        cases hpid
      by_cases hok : ok
      · by_cases hskip : skip <;>
          simp [hok, hskip, List.mem_append, hcl]
      · simp [hok, List.mem_append, hcl]

theorem PidDead_killTerminal {st : ManagerState} {p : Nat} (t s : Nat)
    (h : PidDead st p) :
    PidDead (killTerminal st t s).1 p ∧
    ∀ d, OutEvent.ptyWrite p d ∉ (killTerminal st t s).2 := by
  unfold killTerminal
  cases hocc : (st.tabs.get t).bind (fun ts => ts.ptyProcesses.get s) with
  | none => exact ⟨h, by simp⟩
  | some pid =>
      refine ⟨PidDead_cleanupTerminal t s h, ?_⟩
      intro d hmem
      rcases List.mem_append.mp hmem with hmem | hmem
      · rcases cleanupTerminal_events st t s hmem with ⟨pid2, hpid⟩
        cases hpid
      · simp at hmem

theorem PidDead_onPtyExit {st : ManagerState} {p : Nat} (t s : Nat)
    (h : PidDead st p) :
    PidDead (onPtyExit st t s).1 p ∧
    ∀ d, OutEvent.ptyWrite p d ∉ (onPtyExit st t s).2 := by
  unfold onPtyExit
  refine ⟨PidDead_cleanupTerminal t s h, ?_⟩
  intro d hmem
  rcases List.mem_append.mp hmem with hmem | hmem
  · rcases cleanupTerminal_events st t s hmem with ⟨pid2, hpid⟩
    cases hpid
  · simp at hmem

theorem PidDead_restartTerminal {st : ManagerState} {p : Nat} (t s : Nat)
    (h : PidDead st p) :
    PidDead (restartTerminal st t s).1 p ∧
    ∀ d, OutEvent.ptyWrite p d ∉ (restartTerminal st t s).2 := by
  unfold restartTerminal
  cases hp : (st.tabs.get t).bind (fun ts => ts.terminalProjects.get s) with
  | none => exact ⟨h, by simp⟩
  | some path =>
      simp only
      have h1 := PidDead_cleanupTerminal t s h
      constructor
      · refine ⟨h1.1, ?_, h1.2.2⟩
        intro tid k hk
        rcases get_set_eq_some hk with hh | ⟨rfl, htid⟩
        · exact h1.2.1 tid k hh
        · intro hb
          cases hb
      · intro d hmem
        rcases List.mem_cons.mp hmem with hmem | hmem
        · cases hmem
        · rcases cleanupTerminal_events st t s hmem with ⟨pid2, hpid⟩
          cases hpid

theorem PidDead_markBusy {st : ManagerState} {p : Nat} (t s : Nat)
    (h : PidDead st p) :
    PidDead (markBusy st t s).1 p ∧
    ∀ d, OutEvent.ptyWrite p d ∉ (markBusy st t s).2 := by
  unfold markBusy
  cases hg : st.tabs.get t with
  | none => exact ⟨h, by simp⟩
  | some ts0 =>
      simp only
      have h1 : PidDead
          (match ts0.idleTimers.get s with
            | some tid =>
                let ts1 := { ts0 with idleTimers := ts0.idleTimers.del s }
                { st with pending := st.pending.del tid, tabs := st.tabs.set t ts1 }
            | none => st) p := by
        cases ts0.idleTimers.get s with
        | none => exact h
        | some tid =>
            refine ⟨PidDead_tab_update h.1 hg (fun sq => Or.inl rfl)
              (Nat.ne_of_gt h.2.2), ?_, h.2.2⟩
            intro tid2 k hk
            exact h.2.1 tid2 k (get_del_eq_some hk).1
      generalize (match ts0.idleTimers.get s with
        | some tid =>
            let ts1 := { ts0 with idleTimers := ts0.idleTimers.del s }
            { st with pending := st.pending.del tid, tabs := st.tabs.set t ts1 }
        | none => st) = st1 at h1
      have h2 : PidDead
          (match st1.tabs.get t with
            | some ts =>
                if (ts.terminalBusy.get s).getD false then (st1, ([] : List OutEvent))
                else
                  let ts2 := { ts with terminalBusy := ts.terminalBusy.set s true }
                  ({ st1 with tabs := st1.tabs.set t ts2 },
                    [OutEvent.status t s true])
            | none => (st1, [])).1 p ∧
          ∀ d, OutEvent.ptyWrite p d ∉
            (match st1.tabs.get t with
              | some ts =>
                  if (ts.terminalBusy.get s).getD false then (st1, ([] : List OutEvent))
                  else
                    let ts2 := { ts with terminalBusy := ts.terminalBusy.set s true }
                    ({ st1 with tabs := st1.tabs.set t ts2 },
                      [OutEvent.status t s true])
              | none => (st1, [])).2 := by
        cases hg1 : st1.tabs.get t with
        | none => exact ⟨h1, by simp⟩
        | some ts =>
            by_cases hb : (ts.terminalBusy.get s).getD false
            · simp only [hb, if_true]
              exact ⟨h1, by simp⟩
            · simp only [hb, if_false, Bool.false_eq_true]
              refine ⟨⟨PidDead_tab_update h1.1 hg1 (fun sq => Or.inl rfl)
                (Nat.ne_of_gt h1.2.2), h1.2.1, h1.2.2⟩, ?_⟩
              intro d hmem
              simp at hmem
      refine ⟨?_, h2.2⟩
      refine PidDead_updateTab ?_ (fun ts sq => Or.inl rfl) (Nat.ne_of_gt h.2.2)
      refine ⟨h2.1.1, ?_, h2.1.2.2⟩
      intro tid k hk
      rcases get_set_eq_some hk with hh | ⟨rfl, htid⟩
      · exact h2.1.2.1 tid k hh
      · intro hb
        cases hb

theorem PidDead_onPtyData {st : ManagerState} {p : Nat} (t s : Nat) (dt : String)
    (h : PidDead st p) :
    PidDead (onPtyData st t s dt).1 p ∧
    ∀ d, OutEvent.ptyWrite p d ∉ (onPtyData st t s dt).2 := by
  unfold onPtyData
  refine ⟨(PidDead_markBusy t s h).1, ?_⟩
  intro d hmem
  rcases List.mem_cons.mp hmem with hmem | hmem
  · cases hmem
  · exact (PidDead_markBusy t s h).2 d hmem

theorem PidDead_fireIdle {st : ManagerState} {p : Nat} (t s : Nat)
    (h : PidDead st p) :
    PidDead (fireIdle st t s).1 p ∧
    ∀ d, OutEvent.ptyWrite p d ∉ (fireIdle st t s).2 := by
  unfold fireIdle
  cases hg : st.tabs.get t with
  | none => exact ⟨h, by simp⟩
  | some ts =>
      simp only
      refine ⟨⟨PidDead_tab_update h.1 hg (fun sq => Or.inl rfl)
        (Nat.ne_of_gt h.2.2), h.2.1, h.2.2⟩, ?_⟩
      intro d hmem
      simp at hmem

theorem PidDead_fireBootstrap {st : ManagerState} {p : Nat} (t s pid : Nat)
    (sess : Option String) (hpid : pid ≠ p) (h : PidDead st p) :
    PidDead (fireBootstrap st t s pid sess).1 p ∧
    ∀ d, OutEvent.ptyWrite p d ∉ (fireBootstrap st t s pid sess).2 := by
  unfold fireBootstrap
  cases hg : st.tabs.get t with
  | none => exact ⟨h, by simp⟩
  | some ts =>
      simp only
      refine ⟨⟨PidDead_tab_update h.1 hg (fun sq => Or.inl rfl)
        (Nat.ne_of_gt h.2.2), h.2.1, h.2.2⟩, ?_⟩
      intro d hmem
      by_cases hb : ts.ptyProcesses.haskey s <;> simp [hb] at hmem
      exact hpid hmem.1.symm

theorem PidDead_handleInput {st : ManagerState} {p : Nat} (t s : Nat) (dt : String)
    (h : PidDead st p) :
    PidDead (handleInput st t s dt).1 p ∧
    ∀ d, OutEvent.ptyWrite p d ∉ (handleInput st t s dt).2 := by
  unfold handleInput
  cases hocc : (st.tabs.get t).bind (fun ts => ts.ptyProcesses.get s) with
  | none => exact ⟨h, by simp⟩
  | some pid =>
      refine ⟨h, ?_⟩
      intro d hmem
      simp at hmem
      apply h.1 t s
      rw [hocc, hmem.1]

theorem PidDead_handleResize {st : ManagerState} {p : Nat} (t s : Nat) (c r : Int)
    (h : PidDead st p) :
    PidDead (handleResize st t s c r).1 p ∧
    ∀ d, OutEvent.ptyWrite p d ∉ (handleResize st t s c r).2 := by
  rw [show (handleResize st t s c r).1 = st from handleResize_state st t s c r]
  refine ⟨h, ?_⟩
  intro d hmem
  unfold handleResize at hmem
  cases hocc : (st.tabs.get t).bind (fun ts => ts.ptyProcesses.get s) with
  | none => rw [hocc] at hmem; simp at hmem
  | some pid =>
      rw [hocc] at hmem
      by_cases hc : c > 0 ∧ r > 0 <;> simp [hc] at hmem

theorem PidDead_pickFiles {st : ManagerState} {p : Nat} (t s : Nat)
    (paths : List String) (h : PidDead st p) :
    PidDead (pickFilesForTerminal st t s paths).1 p ∧
    ∀ d, OutEvent.ptyWrite p d ∉ (pickFilesForTerminal st t s paths).2 := by
  rw [show (pickFilesForTerminal st t s paths).1 = st from pickFiles_state st t s paths]
  refine ⟨h, ?_⟩
  intro d hmem
  unfold pickFilesForTerminal at hmem
  by_cases hl : paths.length > 0
  · simp only [hl, if_true] at hmem
    cases hocc : (st.tabs.get t).bind (fun ts => ts.ptyProcesses.get s) with
    | none => rw [hocc] at hmem; simp at hmem
    | some pid =>
        rw [hocc] at hmem
        simp at hmem
        apply h.1 t s
        rw [hocc, hmem.1]
  · simp [hl] at hmem

theorem PidDead_createTab {st : ManagerState} {p : Nat} (h : PidDead st p) :
    PidDead (createTab st).1 p ∧
    ∀ d, OutEvent.ptyWrite p d ∉ (createTab st).2 := by
  unfold createTab
  simp only
  refine ⟨⟨?_, h.2.1, h.2.2⟩, by simp⟩
  intro tq sq
  rcases JSMap.get_set_cases st.tabs st.nextTabId tq emptyTabState with hc | hc
  · rw [hc]; exact h.1 tq sq
  · rw [hc]
    simp [emptyTabState, JSMap.get]

theorem PidDead_switchTab {st : ManagerState} {p : Nat} (t : Nat)
    (h : PidDead st p) :
    PidDead (switchTab st t).1 p ∧
    ∀ d, OutEvent.ptyWrite p d ∉ (switchTab st t).2 := by
  unfold switchTab
  by_cases hk : st.tabs.haskey t <;> simp only [hk, if_true, if_false, Bool.false_eq_true]
  · exact ⟨⟨h.1, h.2.1, h.2.2⟩, by simp⟩
  · exact ⟨h, by simp⟩

theorem PidDead_cleanupFold {p : Nat} (t : Nat) (l : List Nat) :
    ∀ (st : ManagerState) (evs : List OutEvent), PidDead st p →
      PidDead (l.foldl
        (fun acc terminalId =>
          let r := cleanupTerminal acc.1 t terminalId
          (r.1, acc.2 ++ r.2)) (st, evs)).1 p := by
  induction l with
  | nil => intro st evs h; exact h
  | cons s l ih =>
      intro st evs h
      exact ih _ _ (PidDead_cleanupTerminal t s h)

theorem cleanupFold_events (t : Nat) (l : List Nat) :
    ∀ (st : ManagerState) (evs : List OutEvent) (e : OutEvent),
      e ∈ (l.foldl
        (fun acc terminalId =>
          let r := cleanupTerminal acc.1 t terminalId
          (r.1, acc.2 ++ r.2)) (st, evs)).2 →
      e ∈ evs ∨ ∃ pid, e = OutEvent.ptyKill pid := by
  induction l with
  | nil => intro st evs e he; exact Or.inl he
  | cons s l ih =>
      intro st evs e he
      rcases ih _ _ e he with hh | hh
      · rcases List.mem_append.mp hh with hh | hh
        · exact Or.inl hh
        · exact Or.inr (cleanupTerminal_events st t s hh)
      · exact Or.inr hh

theorem PidDead_closeTab {st : ManagerState} {p : Nat} (t : Nat) (confirm : Bool)
    (h : PidDead st p) :
    PidDead (closeTab st t confirm).1 p ∧
    ∀ d, OutEvent.ptyWrite p d ∉ (closeTab st t confirm).2 := by
  unfold closeTab
  cases hg : st.tabs.get t with
  | none => exact ⟨h, by simp⟩
  | some ts =>
      simp only
      by_cases hc : 0 < ts.ptyProcesses.size ∧ confirm = false
      · simp only [hc, if_true]
        exact ⟨h, by simp⟩
      · simp only [hc, if_false]
        have h1 : PidDead (cleanupAllTerminalsInTab st t).1 p := by
          unfold cleanupAllTerminalsInTab
          rw [hg]
          exact PidDead_cleanupFold t _ st [] h
        have hev : ∀ e ∈ (cleanupAllTerminalsInTab st t).2,
            ∃ pid, e = OutEvent.ptyKill pid := by
          unfold cleanupAllTerminalsInTab
          rw [hg]
          intro e he
          rcases cleanupFold_events t _ st [] e he with hh | hh
          · cases hh
          · exact hh
        have h2 : PidDead { (cleanupAllTerminalsInTab st t).1 with
            tabs := (cleanupAllTerminalsInTab st t).1.tabs.del t } p := by
          refine ⟨?_, h1.2.1, h1.2.2⟩
          intro tq sq
          rcases JSMap.get_del_cases (cleanupAllTerminalsInTab st t).1.tabs t tq with hd | hd
          · rw [hd]; exact h1.1 tq sq
          · rw [hd]; simp
        constructor
        · split
          · split
            · exact ⟨h2.1, h2.2.1, h2.2.2⟩
            · refine ⟨?_, h2.2.1, h2.2.2⟩
              intro tq sq
              rcases JSMap.get_set_cases
                  ((cleanupAllTerminalsInTab st t).1.tabs.del t) 1 tq
                  emptyTabState with hcc | hcc
              · rw [hcc]; exact h2.1 tq sq
              · rw [hcc]
                simp [emptyTabState, JSMap.get]
          · exact h2
        · intro d hmem
          rcases List.mem_append.mp hmem with hmem | hmem
          · rcases hev _ hmem with ⟨pid2, hpid⟩
            cases hpid
          · simp at hmem

theorem PidDead_fireTimer {st : ManagerState} {p : Nat} (tid : Nat) (ok : Bool)
    (h : PidDead st p) :
    PidDead (fireTimer st tid ok).1 p ∧
    ∀ d, OutEvent.ptyWrite p d ∉ (fireTimer st tid ok).2 := by
  unfold fireTimer
  cases hg : st.pending.get tid with
  | none => exact ⟨h, by simp⟩
  | some kind =>
      have hdel : PidDead { st with pending := st.pending.del tid } p := by
        refine ⟨h.1, ?_, h.2.2⟩
        intro tid2 k hk
        exact h.2.1 tid2 k (get_del_eq_some hk).1
      cases kind with
      | bootstrap t s pid sess =>
          have hpid : pid ≠ p := by
            intro hx
            subst hx
            exact h.2.1 tid _ hg rfl
          exact PidDead_fireBootstrap t s pid sess hpid hdel
      | idle t s => exact PidDead_fireIdle t s hdel
      | restart t s path =>
          exact ⟨PidDead_startTerminal t s path none false ok hdel,
            fun d => startTerminal_no_write _ t s path none false ok p d⟩

theorem PidDead_handleMessage {st : ManagerState} {p : Nat} (m : InMsg)
    (h : PidDead st p) :
    PidDead (handleMessage st m).1 p ∧
    ∀ d, OutEvent.ptyWrite p d ∉ (handleMessage st m).2 := by
  cases m with
  | selectProject tabId s path resume ok =>
      unfold handleMessage
      by_cases hv : isValidTerminalId s
      · simp only [hv, if_true]
        exact ⟨PidDead_startTerminal _ s path resume false ok h,
          fun d => startTerminal_no_write _ _ s path resume false ok p d⟩
      · simp only [hv, if_false, Bool.false_eq_true]
        exact ⟨h, by simp⟩
  | input tabId s d =>
      unfold handleMessage
      by_cases hv : isValidTerminalId s
      · simp only [hv, if_true]
        exact PidDead_handleInput _ s d h
      · simp only [hv, if_false, Bool.false_eq_true]
        exact ⟨h, by simp⟩
  | resize tabId s c r =>
      unfold handleMessage
      by_cases hv : isValidTerminalId s
      · simp only [hv, if_true]
        exact PidDead_handleResize _ s c r h
      · simp only [hv, if_false, Bool.false_eq_true]
        exact ⟨h, by simp⟩
  | kill tabId s =>
      unfold handleMessage
      by_cases hv : isValidTerminalId s
      · simp only [hv, if_true]
        exact PidDead_killTerminal _ s h
      · simp only [hv, if_false, Bool.false_eq_true]
        exact ⟨h, by simp⟩
  | restart tabId s =>
      unfold handleMessage
      by_cases hv : isValidTerminalId s
      · simp only [hv, if_true]
        exact PidDead_restartTerminal _ s h
      · simp only [hv, if_false, Bool.false_eq_true]
        exact ⟨h, by simp⟩
  | pickFiles tabId s paths =>
      unfold handleMessage
      by_cases hv : isValidTerminalId s
      · simp only [hv, if_true]
        exact PidDead_pickFiles _ s paths h
      · simp only [hv, if_false, Bool.false_eq_true]
        exact ⟨h, by simp⟩
  | createTab => exact PidDead_createTab h
  | switchTab tabId => exact PidDead_switchTab tabId h
  | closeTab tabId confirm => exact PidDead_closeTab tabId confirm h

theorem PidDead_step {st : ManagerState} {p : Nat} (e : Event)
    (h : PidDead st p) :
    PidDead (step st e).1 p ∧ ∀ d, OutEvent.ptyWrite p d ∉ (step st e).2 := by
  cases e with
  | msg m => exact PidDead_handleMessage m h
  | ptyData t s d => exact PidDead_onPtyData t s d h
  | ptyExit t s => exact PidDead_onPtyExit t s h
  | timerFire tid ok => exact PidDead_fireTimer tid ok h

theorem PidDead_run {p : Nat} (evs : List Event) :
    ∀ {st0 : ManagerState}, PidDead st0 p →
      PidDead (run st0 evs).1 p ∧ ∀ d, OutEvent.ptyWrite p d ∉ (run st0 evs).2 := by
  induction evs with
  | nil => intro st0 h; exact ⟨h, by simp [run]⟩
  | cons e evs ih =>
      intro st0 h
      have h1 := PidDead_step e h
      have h2 := ih h1.1
      refine ⟨h2.1, ?_⟩
      intro d hmem
      unfold run at hmem
      simp only [List.mem_append] at hmem
      rcases hmem with hmem | hmem
      · exact h1.2 d hmem
      · exact h2.2 d hmem

theorem TidDead_cleanupTerminal {st : ManagerState} {tid : Nat} (t s : Nat)
    (h : TidDead st tid) : TidDead (cleanupTerminal st t s).1 tid := by
  cases hg : st.tabs.get t with
  | none => rw [cleanupTerminal_of_none s hg]; exact h
  | some ts =>
      rw [cleanupTerminal_of_some s hg]
      refine ⟨?_, h.2⟩
      rw [cleanupTS_pend]
      exact get_delOpt_of_none _ (get_delOpt_of_none _ h.1)

theorem TidDead_startTerminal {st : ManagerState} {tid : Nat} (t s : Nat)
    (path : String) (sess : Option String) (skip ok : Bool)
    (h : TidDead st tid) : TidDead (startTerminal st t s path sess skip ok).1 tid := by
  unfold startTerminal
  cases hg : st.tabs.get t with
  | none => exact h
  | some ts0 =>
      simp only
      have h1 := TidDead_cleanupTerminal t s h
      by_cases hok : ok
      · simp only [hok, if_true]
        by_cases hskip : skip
        · simp only [hskip, if_true]
          refine ⟨?_, ?_⟩
          · rw [updateTab_pending]
            exact h1.1
          · rw [updateTab_nextTimerId]
            exact h1.2
        · simp only [hskip, if_false, Bool.false_eq_true]
          have hne : tid ≠ (cleanupTerminal st t s).1.nextTimerId :=
            Nat.ne_of_lt h1.2
          refine ⟨?_, ?_⟩
          · rw [updateTab_pending]
            have : (updateTab
                { (cleanupTerminal st t s).1 with
                  nextPid := (cleanupTerminal st t s).1.nextPid + 1 } t
                fun ts => { ts with
                  ptyProcesses := ts.ptyProcesses.set s (cleanupTerminal st t s).1.nextPid,
                  terminalProjects := ts.terminalProjects.set s path }).pending =
                (cleanupTerminal st t s).1.pending := updateTab_pending _ t _
            rw [this]
            exact get_set_of_none_ne _ (by
              rw [updateTab_nextTimerId]
              exact hne) h1.1
          · rw [updateTab_nextTimerId]
            have : (updateTab
                { (cleanupTerminal st t s).1 with
                  nextPid := (cleanupTerminal st t s).1.nextPid + 1 } t
                fun ts => { ts with
                  ptyProcesses := ts.ptyProcesses.set s (cleanupTerminal st t s).1.nextPid,
                  terminalProjects := ts.terminalProjects.set s path }).nextTimerId =
                (cleanupTerminal st t s).1.nextTimerId := updateTab_nextTimerId _ t _
            rw [this]
            exact Nat.lt_succ_of_lt h1.2
      · simp only [hok, if_false, Bool.false_eq_true]
        exact h1

theorem TidDead_killTerminal {st : ManagerState} {tid : Nat} (t s : Nat)
    (h : TidDead st tid) : TidDead (killTerminal st t s).1 tid := by
  unfold killTerminal
  cases (st.tabs.get t).bind (fun ts => ts.ptyProcesses.get s) with
  | none => exact h
  | some pid => exact TidDead_cleanupTerminal t s h

theorem TidDead_restartTerminal {st : ManagerState} {tid : Nat} (t s : Nat)
    (h : TidDead st tid) : TidDead (restartTerminal st t s).1 tid := by
  unfold restartTerminal
  cases (st.tabs.get t).bind (fun ts => ts.terminalProjects.get s) with
  | none => exact h
  | some path =>
      simp only
      have h1 := TidDead_cleanupTerminal t s h
      exact ⟨get_set_of_none_ne _ (Nat.ne_of_lt h1.2) h1.1,
        Nat.lt_succ_of_lt h1.2⟩

theorem TidDead_markBusy {st : ManagerState} {tid : Nat} (t s : Nat)
    (h : TidDead st tid) : TidDead (markBusy st t s).1 tid := by
  unfold markBusy
  cases hg : st.tabs.get t with
  | none => exact h
  | some ts0 =>
      simp only
      have h1 : TidDead
          (match ts0.idleTimers.get s with
            | some tid2 =>
                let ts1 := { ts0 with idleTimers := ts0.idleTimers.del s }
                { st with pending := st.pending.del tid2, tabs := st.tabs.set t ts1 }
            | none => st) tid := by
        cases ts0.idleTimers.get s with
        | none => exact h
        | some tid2 => exact ⟨get_del_of_none _ h.1, h.2⟩
      generalize (match ts0.idleTimers.get s with
        | some tid2 =>
            let ts1 := { ts0 with idleTimers := ts0.idleTimers.del s }
            { st with pending := st.pending.del tid2, tabs := st.tabs.set t ts1 }
        | none => st) = st1 at h1
      have h2 : TidDead
          (match st1.tabs.get t with
            | some ts =>
                if (ts.terminalBusy.get s).getD false then (st1, ([] : List OutEvent))
                else
                  let ts2 := { ts with terminalBusy := ts.terminalBusy.set s true }
                  ({ st1 with tabs := st1.tabs.set t ts2 },
                    [OutEvent.status t s true])
            | none => (st1, [])).1 tid := by
        cases st1.tabs.get t with
        | none => exact h1
        | some ts =>
            by_cases hb : (ts.terminalBusy.get s).getD false
            · simpa [hb] using h1
            · simp only [hb, if_false, Bool.false_eq_true]
              exact h1
      refine ⟨?_, ?_⟩
      · rw [updateTab_pending]
        exact get_set_of_none_ne _ (Nat.ne_of_lt h2.2) h2.1
      · rw [updateTab_nextTimerId]
        exact Nat.lt_succ_of_lt h2.2

theorem TidDead_fireIdle {st : ManagerState} {tid : Nat} (t s : Nat)
    (h : TidDead st tid) : TidDead (fireIdle st t s).1 tid := by
  unfold fireIdle
  cases st.tabs.get t with
  | none => exact h
  | some ts => exact ⟨h.1, h.2⟩

theorem TidDead_fireBootstrap {st : ManagerState} {tid : Nat} (t s pid : Nat)
    (sess : Option String) (h : TidDead st tid) :
    TidDead (fireBootstrap st t s pid sess).1 tid := by
  unfold fireBootstrap
  cases st.tabs.get t with
  | none => exact h
  | some ts => exact ⟨h.1, h.2⟩

theorem TidDead_fireTimer {st : ManagerState} {tid : Nat} (tid2 : Nat) (ok : Bool)
    (h : TidDead st tid) : TidDead (fireTimer st tid2 ok).1 tid := by
  unfold fireTimer
  cases hg : st.pending.get tid2 with
  | none => exact h
  | some kind =>
      have hdel : TidDead { st with pending := st.pending.del tid2 } tid :=
        ⟨get_del_of_none _ h.1, h.2⟩
      cases kind with
      | bootstrap t s pid sess => exact TidDead_fireBootstrap t s pid sess hdel
      | idle t s => exact TidDead_fireIdle t s hdel
      | restart t s path => exact TidDead_startTerminal t s path none false ok hdel

theorem TidDead_cleanupFold {tid : Nat} (t : Nat) (l : List Nat) :
    ∀ (st : ManagerState) (evs : List OutEvent), TidDead st tid →
      TidDead (l.foldl
        (fun acc terminalId =>
          let r := cleanupTerminal acc.1 t terminalId
          (r.1, acc.2 ++ r.2)) (st, evs)).1 tid := by
  induction l with
  | nil => intro st evs h; exact h
  | cons s l ih =>
      intro st evs h
      exact ih _ _ (TidDead_cleanupTerminal t s h)

theorem TidDead_closeTab {st : ManagerState} {tid : Nat} (t : Nat) (confirm : Bool)
    (h : TidDead st tid) : TidDead (closeTab st t confirm).1 tid := by
  unfold closeTab
  cases hg : st.tabs.get t with
  | none => exact h
  | some ts =>
      simp only
      by_cases hc : 0 < ts.ptyProcesses.size ∧ confirm = false
      · simp only [hc, if_true]
        exact h
      · simp only [hc, if_false]
        have h1 : TidDead (cleanupAllTerminalsInTab st t).1 tid := by
          unfold cleanupAllTerminalsInTab
          rw [hg]
          exact TidDead_cleanupFold t _ st [] h
        split
        · split
          · exact ⟨h1.1, h1.2⟩
          · exact ⟨h1.1, h1.2⟩
        · exact ⟨h1.1, h1.2⟩

theorem TidDead_handleMessage {st : ManagerState} {tid : Nat} (m : InMsg)
    (h : TidDead st tid) : TidDead (handleMessage st m).1 tid := by
  cases m with
  | selectProject tabId s path resume ok =>
      unfold handleMessage
      by_cases hv : isValidTerminalId s
      · simp only [hv, if_true]
        exact TidDead_startTerminal _ s path resume false ok h
      · simp only [hv, if_false, Bool.false_eq_true]; exact h
  | input tabId s d =>
      unfold handleMessage
      by_cases hv : isValidTerminalId s
      · simp only [hv, if_true]
        rw [handleInput_state]
        exact h
      · simp only [hv, if_false, Bool.false_eq_true]; exact h
  | resize tabId s c r =>
      unfold handleMessage
      by_cases hv : isValidTerminalId s
      · simp only [hv, if_true]
        rw [handleResize_state]
        exact h
      · simp only [hv, if_false, Bool.false_eq_true]; exact h
  | kill tabId s =>
      unfold handleMessage
      by_cases hv : isValidTerminalId s
      · simp only [hv, if_true]
        exact TidDead_killTerminal _ s h
      · simp only [hv, if_false, Bool.false_eq_true]; exact h
  | restart tabId s =>
      unfold handleMessage
      by_cases hv : isValidTerminalId s
      · simp only [hv, if_true]
        exact TidDead_restartTerminal _ s h
      · simp only [hv, if_false, Bool.false_eq_true]; exact h
  | pickFiles tabId s paths =>
      unfold handleMessage
      by_cases hv : isValidTerminalId s
      · simp only [hv, if_true]
        rw [pickFiles_state]
        exact h
      · simp only [hv, if_false, Bool.false_eq_true]; exact h
  | createTab => exact ⟨h.1, h.2⟩
  | switchTab tabId =>
      unfold handleMessage switchTab
      by_cases hk : st.tabs.haskey tabId <;>
        simp only [hk, if_true, if_false, Bool.false_eq_true] <;>
        exact ⟨h.1, h.2⟩
  | closeTab tabId confirm => exact TidDead_closeTab tabId confirm h

theorem TidDead_step {st : ManagerState} {tid : Nat} (e : Event)
    (h : TidDead st tid) : TidDead (step st e).1 tid := by
  cases e with
  | msg m => exact TidDead_handleMessage m h
  | ptyData t s d => exact TidDead_markBusy t s h
  | ptyExit t s => exact TidDead_cleanupTerminal t s h
  | timerFire tid2 ok => exact TidDead_fireTimer tid2 ok h

theorem TidDead_run {tid : Nat} (evs : List Event) :
    ∀ {st0 : ManagerState}, TidDead st0 tid → TidDead (run st0 evs).1 tid := by
  induction evs with
  | nil => intro st0 h; exact h
  | cons e evs ih =>
      intro st0 h
      exact ih (TidDead_step e h)

/-- A cleared (non-pending) timer can never fire: fireTimer is a no-op. -/
theorem fireTimer_dead {st : ManagerState} {tid : Nat} (ok : Bool)
    (h : st.pending.get tid = none) : fireTimer st tid ok = (st, []) := by
  unfold fireTimer
  rw [h]

theorem killTerminal_no_write (st : ManagerState) (t s pq : Nat) (d : String) :
    OutEvent.ptyWrite pq d ∉ (killTerminal st t s).2 := by
  unfold killTerminal
  cases (st.tabs.get t).bind (fun ts => ts.ptyProcesses.get s) with
  | none => simp
  | some pid =>
      simp only
      intro hmem
      rcases List.mem_append.mp hmem with hmem | hmem
      · rcases cleanupTerminal_events st t s hmem with ⟨pid2, hpid⟩
        cases hpid
      · simp at hmem

theorem PidsBelow_tab_clause {st : ManagerState} (h : PidsBelow st) :
    ∀ tq sq : Nat,
      ((st.tabs.get tq).bind fun x => x.ptyProcesses.get sq) ≠ some st.nextPid := by
  intro tq sq hx
  cases hg : st.tabs.get tq with
  | none => rw [hg] at hx; cases hx
  | some ts =>
      rw [hg] at hx
      simp only [Option.some_bind] at hx
      have hmem := JSMap.get_eq_some_mem hx
      have := h.1 _ (JSMap.get_eq_some_mem hg) _ hmem
      exact lt_irrefl _ this

theorem PidsBelow_pend_clause {st : ManagerState} (h : PidsBelow st) :
    ∀ tid k, st.pending.get tid = some k → bootPid k ≠ some st.nextPid := by
  intro tid k hk hb
  have hmem := JSMap.get_eq_some_mem hk
  have := h.2 _ hmem
  cases k with
  | bootstrap t2 s2 pid2 sess2 =>
      simp only [bootPid] at hb
      have hpid : pid2 = st.nextPid := Option.some_injective _ hb
      subst hpid
      exact lt_irrefl _ this
  | idle t2 s2 => cases hb
  | restart t2 s2 p2 => cases hb

/-- The tab state produced by a successful startTerminal on slot s: fresh
pid in the slot, recorded project, cleared timers and busy flag, and the
bootstrap timeout handle stored. -/
def startedTab (ts0 : TabState) (s pid tidB : Nat) (path : String) : TabState :=
  { ptyProcesses := (ts0.ptyProcesses.del s).set s pid,
    terminalProjects := (ts0.terminalProjects.del s).set s path,
    idleTimers := ts0.idleTimers.del s,
    terminalBusy := ts0.terminalBusy.del s,
    claudeCommandTimeouts := (ts0.claudeCommandTimeouts.del s).set s tidB }

/-- Explicit description of a successful startTerminal (spawn succeeds,
claude not skipped) on an existing tab. -/
theorem startTerminal_spec {st : ManagerState} {t : Nat} {ts0 : TabState}
    (hg : st.tabs.get t = some ts0) (s : Nat) (path : String) (sess : Option String) :
    startTerminal st t s path sess false true =
      ({ tabs := st.tabs.set t (startedTab ts0 s st.nextPid st.nextTimerId path),
         activeTabId := st.activeTabId,
         nextTabId := st.nextTabId,
         nextPid := st.nextPid + 1,
         nextTimerId := st.nextTimerId + 1,
         pending := (delOpt (delOpt st.pending (ts0.idleTimers.get s))
             (ts0.claudeCommandTimeouts.get s)).set st.nextTimerId
           (TimerKind.bootstrap t s st.nextPid sess) },
        (cleanupTS ts0 st.pending s).2.2 ++ [OutEvent.clear t s]) := by
  unfold startTerminal
  simp only [hg, cleanupTerminal_of_some s hg, cleanupTS_fst, cleanupTS_pend]
  unfold updateTab
  simp only [JSMap.get_set_self, JSMap.set_set]
  simp [startedTab]

/-- The cleanup inside killTerminal/startTerminal removes the slot's pending
idle timer. -/
theorem cleanup_kills_idle_tid {st : ManagerState} {t s tid : Nat} {ts0 : TabState}
    (hg : st.tabs.get t = some ts0) (hidle : ts0.idleTimers.get s = some tid) :
    (cleanupTerminal st t s).1.pending.get tid = none := by
  rw [cleanupTerminal_of_some s hg]
  simp only
  rw [cleanupTS_pend]
  apply get_delOpt_of_none
  rw [hidle]
  exact JSMap.get_del_self _ _

/-- startTerminal on a slot whose idle timer is pending clears that timer
for good, whatever the spawn outcome. -/
theorem TidDead_startTerminal_clears {st : ManagerState} {t s tid : Nat}
    {ts0 : TabState} (hg : st.tabs.get t = some ts0)
    (hidle : ts0.idleTimers.get s = some tid) (hlt : tid < st.nextTimerId)
    (path : String) (sess : Option String) (ok : Bool) :
    TidDead (startTerminal st t s path sess false ok).1 tid := by
  have h1 : TidDead (cleanupTerminal st t s).1 tid :=
    ⟨cleanup_kills_idle_tid hg hidle, by
      rw [cleanupTerminal_nextTimerId]
      exact hlt⟩
  unfold startTerminal
  simp only [hg]
  by_cases hok : ok
  · simp only [hok, if_true]
    simp only [Bool.false_eq_true, if_false]
    have hne : tid ≠ (cleanupTerminal st t s).1.nextTimerId := Nat.ne_of_lt h1.2
    refine ⟨?_, ?_⟩
    · rw [updateTab_pending]
      have hp : (updateTab
          { (cleanupTerminal st t s).1 with
            nextPid := (cleanupTerminal st t s).1.nextPid + 1 } t
          fun ts => { ts with
            ptyProcesses := ts.ptyProcesses.set s (cleanupTerminal st t s).1.nextPid,
            terminalProjects := ts.terminalProjects.set s path }).pending =
          (cleanupTerminal st t s).1.pending := updateTab_pending _ t _
      rw [hp]
      exact get_set_of_none_ne _ (by
        rw [updateTab_nextTimerId]
        exact hne) h1.1
    · rw [updateTab_nextTimerId]
      have hn : (updateTab
          { (cleanupTerminal st t s).1 with
            nextPid := (cleanupTerminal st t s).1.nextPid + 1 } t
          fun ts => { ts with
            ptyProcesses := ts.ptyProcesses.set s (cleanupTerminal st t s).1.nextPid,
            terminalProjects := ts.terminalProjects.set s path }).nextTimerId =
          (cleanupTerminal st t s).1.nextTimerId := updateTab_nextTimerId _ t _
      rw [hn]
      exact Nat.lt_succ_of_lt h1.2
  · simp only [hok, Bool.false_eq_true, if_false]
    exact h1

/-- C1: timers of a prior slot occupant never act after the slot is killed or
replaced.  (i) After start(t,s) immediately followed by kill(t,s), neither
the two calls themselves nor any subsequent event sequence ever writes
anything — in particular the bootstrap command — into the killed process.
(ii) If the slot's pending idle timer tid is killed together with its session
and a new session is started in the slot, firing tid at any later point is a
complete no-op: no state change and no status event for the new session. -/
theorem c1_stale_timers_never_act (st : ManagerState) (t s : Nat) (ts0 : TabState)
    (path : String) (sess : Option String)
    (hg : st.tabs.get t = some ts0) (hpids : PidsBelow st) (htids : TidsBelow st) :
    (∀ d : String,
      OutEvent.ptyWrite st.nextPid d ∉ (startTerminal st t s path sess false true).2 ∧
      OutEvent.ptyWrite st.nextPid d ∉
        (killTerminal (startTerminal st t s path sess false true).1 t s).2) ∧
    (∀ (evs : List Event) (d : String),
      OutEvent.ptyWrite st.nextPid d ∉
        (run (killTerminal (startTerminal st t s path sess false true).1 t s).1 evs).2) ∧
    (∀ tid, ts0.idleTimers.get s = some tid →
      ∀ (path2 : String) (sess2 : Option String) (ok2 : Bool) (evs : List Event)
        (ok3 : Bool),
        step (run (startTerminal (killTerminal st t s).1 t s path2 sess2 false ok2).1
            evs).1 (Event.timerFire tid ok3) =
          ((run (startTerminal (killTerminal st t s).1 t s path2 sess2 false ok2).1
            evs).1, [])) := by
  have hspec := startTerminal_spec hg s path sess
  have hg1 : (startTerminal st t s path sess false true).1.tabs.get t =
      some (startedTab ts0 s st.nextPid st.nextTimerId path) := by
    rw [hspec]
    exact JSMap.get_set_self _ _ _
  have hocc1 : (((startTerminal st t s path sess false true).1.tabs.get t).bind
      fun x => x.ptyProcesses.get s) = some st.nextPid := by
    rw [hg1]
    simp only [Option.some_bind]
    exact JSMap.get_set_self _ _ _
  have hkill := killTerminal_of_some hocc1
  have hdead : PidDead (killTerminal (startTerminal st t s path sess false true).1 t s).1
      st.nextPid := by
    rw [hkill]
    rw [cleanupTerminal_of_some s hg1]
    refine ⟨?_, ?_, ?_⟩
    · rw [hspec]
      simp only
      rw [JSMap.set_set]
      refine PidDead_tab_update (PidsBelow_tab_clause hpids) hg ?_
        (Nat.ne_of_gt (Nat.lt_succ_self st.nextPid))
      intro sq
      rw [cleanupTS_fst]
      simp only [startedTab]
      by_cases hsq : sq = s
      · subst hsq
        exact Or.inr (Or.inl (JSMap.get_del_self _ _))
      · rw [JSMap.get_del_ne _ _ _ hsq, JSMap.get_set_ne _ _ _ _ hsq]
        rcases JSMap.get_del_cases ts0.ptyProcesses s sq with hc | hc
        · exact Or.inl hc
        · exact Or.inr (Or.inl hc)
    · intro tid k hk
      rw [cleanupTS_pend] at hk
      have htid_ne : tid ≠ st.nextTimerId := by
        have hidle1 : (startedTab ts0 s st.nextPid st.nextTimerId path).idleTimers.get s =
            none := JSMap.get_del_self _ _
        have hcl : (startedTab ts0 s st.nextPid st.nextTimerId path).claudeCommandTimeouts.get
            s = some st.nextTimerId := JSMap.get_set_self _ _ _
        rw [hidle1] at hk
        simp only [delOpt] at hk
        rw [hcl] at hk
        exact (get_del_eq_some hk).2
      have hk2 := get_delOpt_eq_some (get_delOpt_eq_some hk)
      rw [hspec] at hk2
      simp only at hk2
      rcases get_set_eq_some hk2 with hh | ⟨rfl, htid⟩
      · exact PidsBelow_pend_clause hpids tid k
          (get_delOpt_eq_some (get_delOpt_eq_some hh))
      · exact absurd htid htid_ne
    · rw [hspec]
      exact Nat.lt_succ_self _
  refine ⟨?_, ?_, ?_⟩
  · intro d
    exact ⟨startTerminal_no_write st t s path sess false true st.nextPid d,
      killTerminal_no_write _ t s st.nextPid d⟩
  · intro evs d
    exact (PidDead_run evs hdead).2 d
  · intro tid hidle path2 sess2 ok2 evs ok3
    have hlt : tid < st.nextTimerId := by
      have hmem := JSMap.get_eq_some_mem hidle
      exact (htids.1 _ (JSMap.get_eq_some_mem hg)).1 _ hmem
    have hdead2 : TidDead (startTerminal (killTerminal st t s).1 t s
        path2 sess2 false ok2).1 tid := by
      cases hocc : (st.tabs.get t).bind (fun x => x.ptyProcesses.get s) with
      | some pid0 =>
          have hk := killTerminal_of_some hocc
          have h1 : TidDead (killTerminal st t s).1 tid := by
            rw [hk]
            exact ⟨cleanup_kills_idle_tid hg hidle, by
              rw [cleanupTerminal_nextTimerId]
              exact hlt⟩
          exact TidDead_startTerminal t s path2 sess2 false ok2 h1
      | none =>
          have hk := killTerminal_of_none hocc
          rw [hk]
          exact TidDead_startTerminal_clears hg hidle hlt path2 sess2 ok2
    have hdeadN := TidDead_run evs hdead2
    show fireTimer _ tid ok3 = _
    exact fireTimer_dead ok3 hdeadN.1

/-- A concrete reachable state with one running session in tab 1 slot 0 and
a pending idle timer for it. -/
def c1WitnessState : ManagerState :=
  (run initState [Event.msg (InMsg.selectProject none 0 "/p" none true),
    Event.ptyData 1 0 "x"]).1

theorem c1_stale_timers_never_act_witness :
    (c1WitnessState.tabs.get 1 =
      some ⟨[(0, 0)], [(0, "/p")], [(0, 1)], [(0, true)], [(0, 0)]⟩) ∧
    PidsBelow c1WitnessState ∧ TidsBelow c1WitnessState ∧
    ((∀ d : String,
      OutEvent.ptyWrite c1WitnessState.nextPid d ∉
        (startTerminal c1WitnessState 1 0 "/q" none false true).2 ∧
      OutEvent.ptyWrite c1WitnessState.nextPid d ∉
        (killTerminal (startTerminal c1WitnessState 1 0 "/q" none false true).1 1 0).2) ∧
    (∀ (evs : List Event) (d : String),
      OutEvent.ptyWrite c1WitnessState.nextPid d ∉
        (run (killTerminal (startTerminal c1WitnessState 1 0 "/q" none false true).1
          1 0).1 evs).2) ∧
    (∀ tid, (⟨[(0, 0)], [(0, "/p")], [(0, 1)], [(0, true)], [(0, 0)]⟩ :
        TabState).idleTimers.get 0 = some tid →
      ∀ (path2 : String) (sess2 : Option String) (ok2 : Bool) (evs : List Event)
        (ok3 : Bool),
        step (run (startTerminal (killTerminal c1WitnessState 1 0).1 1 0
            path2 sess2 false ok2).1 evs).1 (Event.timerFire tid ok3) =
          ((run (startTerminal (killTerminal c1WitnessState 1 0).1 1 0
            path2 sess2 false ok2).1 evs).1, []))) :=
  ⟨by decide, by decide, by decide,
    c1_stale_timers_never_act c1WitnessState 1 0
      ⟨[(0, 0)], [(0, "/p")], [(0, 1)], [(0, true)], [(0, 0)]⟩ "/q" none
      (by decide) (by decide) (by decide)⟩

end QuadTerminal
